import Mathlib

/-!
Verification development for the mongo ODM package (mongo/mongo.go).

Shallow embedding conventions:
- `bson.ObjectId` is modelled as `Nat`; the zero ObjectId (the empty string,
  for which `Valid()` is false) is `0`, every generated id is nonzero.
- Go pointers to entities are modelled as references `Ref := Nat` into a heap
  `Ref -> EntityData`; pointer identity is reference equality.
- Go maps are modelled as association lists with in-place overwrite
  (`alSet`); iteration order of a Go map is unspecified, the model fixes the
  insertion order.
- Reflection field access (`Value.Elem().FieldByName`) becomes lookup by field
  name in `EntityData.fields`; Go panics on absent fields or failed type
  assertions are modelled by zero defaults, claims only exercise well-typed
  entities.
- The mgo driver is an external collaborator; its calls are modelled by
  oracles returning records or a driver error, and every driver call is
  recorded in an event trace.
-/

/-- Association-list update with Go map semantics: overwrite in place if the
key exists, append otherwise. -/
def alSet [DecidableEq α] : List (α × β) → α → β → List (α × β)
  | [], k, v => [(k, v)]
  | (k', v') :: rest, k, v =>
    if k' = k then (k, v) :: rest else (k', v') :: alSet rest k v

/-- Association-list lookup, Go map indexing. -/
def alGet [DecidableEq α] : List (α × β) → α → Option β
  | [], _ => none
  | (k', v') :: rest, k => if k' = k then some v' else alGet rest k

/-- Association list of lists: append one element at a key
(Go `m[k] = append(m[k], v)`). -/
def alAppend [DecidableEq α] (m : List (α × List β)) (k : α) (v : β) :
    List (α × List β) :=
  alSet m k ((alGet m k).getD [] ++ [v])

/-- bson.ObjectId: 0 is the zero ObjectId, for which `Valid()` is false. -/
abbrev ObjectId := Nat

/-- Go pointer identity for entities. -/
abbrev Ref := Nat

/-- A reflected Go value stored in an entity field or in a fetched document:
object id, string, integer, pointer to entity (none = nil), slice of entity
pointers, array of object ids. -/
inductive BVal where
  | vId (id : ObjectId)
  | vStr (s : String)
  | vInt (n : Int)
  | vPtr (r : Option Ref)
  | vPtrs (rs : List Ref)
  | vIds (ids : List ObjectId)
deriving Repr, DecidableEq

/-- isZero (mongo.go): arrays and slices are zero when empty, other values
are zero when equal to the zero value of their type. -/
def isZero : BVal → Bool
  | .vId i => i = 0
  | .vStr s => s = ""
  | .vInt n => n = 0
  | .vPtr r => r.isNone
  | .vPtrs rs => rs.isEmpty
  | .vIds ids => ids.isEmpty

/-- Go type assertion `.(bson.ObjectId)`; a failed assertion panics in Go and
is modelled as the zero id. -/
def asId : BVal → ObjectId
  | .vId i => i
  | _ => 0

/-- Go type assertion to an array of object ids (`.([]interface)` followed by
per-element id assertions); failure is modelled as the empty array. -/
def asIds : BVal → List ObjectId
  | .vIds l => l
  | _ => []

/-- The in-memory state of one entity: its dynamic type (reflect.TypeOf of
the pointer) and its fields by name. -/
structure EntityData where
  typeName : String
  fields : List (String × BVal)
deriving Repr, DecidableEq

/-- Read a field by name (`Value.Elem().FieldByName(n).Interface()`);
Go panics when the field is absent, modelled as the zero id value. -/
def EntityData.get (e : EntityData) (n : String) : BVal :=
  (alGet e.fields n).getD (.vId 0)

/-- Write a field by name (`FieldByName(n).Set(v)`); Go panics when the field
is absent, modelled as a no-op. -/
def EntityData.set (e : EntityData) (n : String) (v : BVal) : EntityData :=
  if (alGet e.fields n).isSome then { e with fields := alSet e.fields n v }
  else e

/-- The entity heap. -/
abbrev Heap := Ref → EntityData

def heapSet (h : Heap) (r : Ref) (e : EntityData) : Heap :=
  fun r' => if r' = r then e else h r'

/-- Errors of the mgo driver visible to the ODM; `notFound` is the sentinel
mgo.ErrNotFound. -/
inductive MgoErr where
  | notFound
  | other
deriving Repr, DecidableEq

/-- The package error values (the Err... globals of mongo.go).
`invalidAnnot` models ErrInvalidAnnotation. -/
inductive Err where
  | documentNotRegistered
  | idFieldNotFound
  | mappedFieldNotFound
  | fieldNotFound
  | notAStruct
  | notAPointer
  | notAnArray
  | notImpl
  | invalidAnnot
  | driver (e : MgoErr)
deriving Repr, DecidableEq

/-- relationMap (mongo.go): the zero value, mappedBy, inversedBy. -/
inductive relationMap where
  | rmZero
  | mappedBy
  | inversedBy
deriving Repr, DecidableEq

/-- relationType (mongo.go): the zero value, referenceMany, referenceOne. -/
inductive relationType where
  | rtZero
  | referenceMany
  | referenceOne
deriving Repr, DecidableEq

/-- load (mongo.go): lazy is the zero value. -/
inductive load where
  | lazy
  | eager
deriving Repr, DecidableEq

/-- cascade (mongo.go): the zero value, all, persist, remove. -/
inductive cascade where
  | cZero
  | all
  | persist
  | remove
deriving Repr, DecidableEq

/-- relation (mongo.go): a relationship between the source document and a
related document. -/
structure relation where
  load : load := .lazy
  relation : relationType := .rtZero
  targetDocument : String := ""
  cascade : cascade := .cZero
  mapped : relationMap := .rmZero
  mappedField : String := ""
  idStorageField : String := ""
deriving Repr, DecidableEq

/-- zeroRelation (mongo.go). -/
def zeroRelation : relation := {}

/-- field (mongo.go): metadata for one struct field. -/
structure MetaField where
  composite : Bool := false
  index : Bool := false
  unique : Bool := false
  key : String := ""
  name : String := ""
  omitempty : Bool := false
  relation : relation := {}
  ignore : Bool := false
deriving Repr, DecidableEq

/-- field.hasRelation (mongo.go). -/
def MetaField.hasRelation (f : MetaField) : Bool :=
  f.relation ≠ zeroRelation

/-- metadata (mongo.go): how the fields of a struct are persisted.
structType is the reflected type, modelled by its name. -/
structure metadata where
  targetDocument : String := ""
  structType : String := ""
  idField : String := ""
  idKey : String := ""
  fields : List MetaField := []
deriving Repr, DecidableEq

/-- zeroMetadata (mongo.go). -/
def zeroMetadata : metadata := {}

/-- metadata.findField (mongo.go). -/
def metadata.findField (meta : metadata) (fieldname : String) :
    Option MetaField :=
  meta.fields.find? (fun f => f.name = fieldname)

/-- metadata.findIDField (mongo.go): the field whose document key is _id. -/
def metadata.findIDField (meta : metadata) : Option MetaField :=
  meta.fields.find? (fun f => f.key = "_id")

/-- metadata.hasFieldWithIndex (mongo.go). -/
def metadata.hasFieldWithIndex (meta : metadata) : Bool :=
  meta.fields.any (fun f => f.index)

/-- metadata.findFieldsWithIndex (mongo.go). -/
def metadata.findFieldsWithIndex (meta : metadata) : List MetaField :=
  meta.fields.filter (fun f => f.index)

/-- metadata.hasFieldWithComposite (mongo.go). -/
def metadata.hasFieldWithComposite (meta : metadata) : Bool :=
  meta.fields.any (fun f => f.composite)

/-- metadata.findFieldsWithComposite (mongo.go). -/
def metadata.findFieldsWithComposite (meta : metadata) : List MetaField :=
  meta.fields.filter (fun f => f.composite)

/-- metadata.hasRelation (mongo.go). -/
def metadata.hasRelation (meta : metadata) : Bool :=
  meta.fields.any (fun f => f.hasRelation)

/-- metadata.getFieldsWithRelation (mongo.go). -/
def metadata.getFieldsWithRelation (meta : metadata) : List MetaField :=
  meta.fields.filter (fun f => f.hasRelation)

/-- An mgo index (Key, Unique). -/
structure MIndex where
  key : List String
  unique : Bool
deriving Repr, DecidableEq

/-- metadata.getIndexes (mongo.go). -/
def metadata.getIndexes (meta : metadata) : List MIndex :=
  meta.findFieldsWithIndex.map (fun f => ⟨[f.key], f.unique⟩)

/-- metadata.getComposites (mongo.go): one unique index over all composite
field keys. -/
def metadata.getComposites (meta : metadata) : List MIndex :=
  [⟨meta.findFieldsWithComposite.map (fun f => f.key), true⟩]

/-- metadatas (mongo.go): the registry, keyed by the reflected (pointer)
type, modelled by its name. -/
abbrev metadatas := List (String × metadata)

/-- metadatas.getMetadatas (mongo.go). -/
def getMetadatas (metas : metadatas) (typeName : String) :
    Except Err metadata :=
  match alGet metas typeName with
  | none => .error .documentNotRegistered
  | some meta => .ok meta

/-- metadatas.findMetadataByCollectionName (mongo.go): first registered type
whose targetDocument equals the name (Go map iteration order is unspecified,
the model uses registration order). -/
def findMetadataByCollectionName (metas : metadatas) (name : String) :
    Option (metadata × String) :=
  (metas.find? (fun p => p.2.targetDocument = name)).map
    (fun p => (p.2, p.1))

/-- metadatas.getDocumentID (mongo.go): locate the id field via findIDField
(by stored key _id) and read it from the entity. -/
def getDocumentID (metas : metadatas) (h : Heap) (r : Ref) :
    Except Err ObjectId :=
  match alGet metas (h r).typeName with
  | none => .error .documentNotRegistered
  | some meta =>
    match meta.findIDField with
    | none => .error .idFieldNotFound
    | some idFields => .ok (asId ((h r).get idFields.name))

/-- `id, _ := getDocumentID(value)`: the error is discarded and the id is
left at its zero value. -/
def getDocumentIDD (metas : metadatas) (h : Heap) (r : Ref) : ObjectId :=
  match getDocumentID metas h r with
  | .ok i => i
  | .error _ => 0

/-- metadatas.setIDForValue (mongo.go): write the field named meta.idField;
for an unregistered type the error is produced before any write. -/
def setIDForValue (metas : metadatas) (h : Heap) (r : Ref) (id : ObjectId) :
    Heap :=
  match alGet metas (h r).typeName with
  | none => h
  | some meta => heapSet h r ((h r).set meta.idField (.vId id))

/-- strings.ToLower (the source shortcut toLower), modelled over the
character list so that it evaluates by kernel reduction. -/
def toLower (s : String) : String := ⟨s.data.map Char.toLower⟩

/-- strings.TrimSpace, modelled over the character list. -/
def trimSpace (s : String) : String :=
  ⟨((s.data.dropWhile Char.isWhitespace).reverse.dropWhile
      Char.isWhitespace).reverse⟩

/-- One definition produced by the external annotation tokenizer:
a name and a list of key=value parameters. -/
structure TagDef where
  name : String
  params : List (String × String)
deriving Repr, DecidableEq

/-- The annotation channels of one struct field, as seen by
getTypeMetadatas: the declared field name, the comma-split bson tag
(strings.Split of the tag, empty tag gives one empty part), whether the odm
tag is exactly a dash, and the tokenizer output for the odm tag (the
tokenizer is an external collaborator, a successful parse is taken as
input). -/
structure FieldInput where
  name : String
  bsonParts : List String := [""]
  odmDash : Bool := false
  odmDefs : List TagDef := []
deriving Repr, DecidableEq

/-- resolveKeyForField (mongo.go): the bson key of the named struct field,
or the lowercased name, or the empty string when the field is absent. -/
def resolveKeyForField (fields : List FieldInput) (name : String) : String :=
  match fields.find? (fun f => f.name = name) with
  | none => ""
  | some f =>
    match f.bsonParts with
    | p0 :: _ => if p0 ≠ "" ∧ p0 ≠ "-" then p0 else (toLower f.name)
    | [] => (toLower f.name)

/-- One relation parameter of a referenceMany/referenceOne definition
(the inner switch of getTypeMetadatas); an unrecognized key is
ErrInvalidAnnotation. -/
def applyRelParam (rel : relation) (p : String × String) :
    Except Err relation :=
  match (toLower p.1) with
  | "mappedby" => .ok { rel with mapped := .mappedBy, mappedField := p.2 }
  | "inversedby" => .ok { rel with mapped := .inversedBy, mappedField := p.2 }
  | "targetdocument" => .ok { rel with targetDocument := p.2 }
  | "cascade" =>
    .ok { rel with cascade :=
      match (toLower p.2) with
      | "persist" => .persist
      | "remove" => .remove
      | "all" => .all
      | _ => rel.cascade }
  | "storeid" => .ok { rel with idStorageField := p.2 }
  | "load" =>
    .ok { rel with load := match (toLower p.2) with | "eager" => .eager | _ => rel.load }
  | _ => .error .invalidAnnot

/-- The relation parameter loop: after each parameter the field picks up the
relation built so far (the assignment sits inside the loop in the source, so
a definition with no parameters leaves the field relation untouched). -/
def applyRelParams (rel : relation) (mf : MetaField) :
    List (String × String) → Except Err MetaField
  | [] => .ok mf
  | p :: ps =>
    match applyRelParam rel p with
    | .error e => .error e
    | .ok rel' => applyRelParams rel' { mf with relation := rel' } ps

/-- One definition of an odm tag (the outer switch of getTypeMetadatas);
an unrecognized name is ErrInvalidAnnotation. -/
def processDef (meta : metadata) (mf : MetaField) (fieldName : String)
    (d : TagDef) : Except Err (metadata × MetaField) :=
  match (toLower d.name) with
  | "id" => .ok ({ meta with idField := fieldName }, mf)
  | "omitempty" => .ok (meta, { mf with omitempty := true })
  | "index" =>
    .ok (meta, d.params.foldl
      (fun mf p => if (toLower p.1) = "unique" then { mf with unique := true } else mf)
      { mf with index := true })
  | "composite" => .ok (meta, { mf with composite := true })
  | "referencemany" =>
    match applyRelParams { zeroRelation with relation := .referenceMany }
        { mf with key := "odm:" ++ (toLower fieldName) ++ "ids" } d.params with
    | .error e => .error e
    | .ok mf => .ok (meta, mf)
  | "referenceone" =>
    match applyRelParams { zeroRelation with relation := .referenceOne }
        { mf with key := "odm:" ++ (toLower fieldName) ++ "id" } d.params with
    | .error e => .error e
    | .ok mf => .ok (meta, mf)
  | _ => .error .invalidAnnot

/-- The definition loop of getTypeMetadatas, first error aborts. -/
def processDefs (meta : metadata) (mf : MetaField) (fieldName : String) :
    List TagDef → Except Err (metadata × MetaField)
  | [] => .ok (meta, mf)
  | d :: ds =>
    match processDef meta mf fieldName d with
    | .error e => .error e
    | .ok (meta', mf') => processDefs meta' mf' fieldName ds

/-- The per-field body of getTypeMetadatas: bson tag handling, odm tag
handling, relation index suppression, storeid key redirection. Returns the
updated metadata and the compiled field, or none when the field is skipped
by a dash tag (the source continues before appending). -/
def compileField (allFields : List FieldInput) (meta : metadata)
    (fi : FieldInput) : Except Err (metadata × Option MetaField) :=
  let mf : MetaField := { name := fi.name, key := (toLower fi.name) }
  let (meta, mf, skip) :=
    match fi.bsonParts with
    | [] => (meta, mf, false)
    | p0 :: _ =>
      let key := (trimSpace p0)
      if key ≠ "" then
        let mf := { mf with key := key }
        let meta :=
          if key = "_id" then { meta with idField := fi.name, idKey := "_id" }
          else meta
        if key = "-" then (meta, { mf with ignore := true }, true)
        else (meta, mf, false)
      else (meta, mf, false)
  if skip then .ok (meta, none)
  else
    let mf :=
      match fi.bsonParts with
      | _ :: p1 :: _ => if (trimSpace p1) = "omitempty" then { mf with omitempty := true } else mf
      | _ => mf
    if fi.odmDash then .ok (meta, none)
    else
      match processDefs meta mf fi.name fi.odmDefs with
      | .error e => .error e
      | .ok (meta, mf) =>
        let mf := if mf.index ∧ mf.hasRelation then { mf with index := false } else mf
        let mf :=
          if mf.relation.idStorageField ≠ "" then
            match resolveKeyForField allFields mf.relation.idStorageField with
            | "" => mf
            | key => { mf with key := key }
          else mf
        .ok (meta, some mf)

/-- The field loop of getTypeMetadatas. -/
def getTypeMetadatasAux (allFields : List FieldInput) (meta : metadata) :
    List FieldInput → Except Err metadata
  | [] => .ok meta
  | fi :: rest =>
    match compileField allFields meta fi with
    | .error e => .error e
    | .ok (meta, none) => getTypeMetadatasAux allFields meta rest
    | .ok (meta, some mf) =>
      getTypeMetadatasAux allFields { meta with fields := meta.fields ++ [mf] } rest

/-- getTypeMetadatas (mongo.go): compile the struct tag channels of every
declared field into a metadata, or fail with ErrInvalidAnnotation. -/
def getTypeMetadatas (fields : List FieldInput) : Except Err metadata :=
  getTypeMetadatasAux fields zeroMetadata fields

/-- task (mongo.go): del is the zero value. -/
inductive task where
  | del
  | insert
  | update
deriving Repr, DecidableEq

/-- tasks (mongo.go): the intent buffer keyed by entity identity. -/
abbrev tasksT := List (Ref × task)

/-- The flat record written to storage. -/
abbrev MMap := List (String × BVal)

/-- stripID (mongo.go): remove the _id key of a record. -/
def stripID (m : MMap) : MMap :=
  m.filter (fun p => p.1 ≠ "_id")

/-- defaultDocumentManager (mongo.go): registry, intent buffer, heap of
entities and the fresh ObjectId generator state. -/
structure DM where
  metadatas : metadatas := []
  tasks : tasksT := []
  heap : Heap := fun _ => ⟨"", []⟩
  gen : Nat := 0

/-- bson.NewObjectId: process-unique, never the zero id. -/
def bsonNewObjectId (gen : Nat) : ObjectId × Nat := (gen + 1, gen + 1)

/-- The argument of Register: a value that must be a pointer to struct,
together with the annotation channels of its struct fields. -/
structure RegisterInput where
  isPtr : Bool := true
  isStruct : Bool := true
  typeName : String
  fields : List FieldInput
deriving Repr

/-- Register (mongo.go): kind checks, metadata compilation, then (only on
success) insertion into the registry. Returns the manager and the error. -/
def Register (dm : DM) (targetDocument : String) (doc : RegisterInput) :
    DM × Option Err :=
  if ¬doc.isPtr then (dm, some .notAPointer)
  else if ¬doc.isStruct then (dm, some .notAStruct)
  else
    match getTypeMetadatas doc.fields with
    | .error e => (dm, some e)
    | .ok meta =>
      let meta := { meta with structType := doc.typeName,
                              targetDocument := targetDocument }
      ({ dm with metadatas := alSet dm.metadatas doc.typeName meta }, none)

/-- Persist (mongo.go): read the document id discarding the error; an
invalid (zero) id means a new document, so a fresh id is assigned and a
create intent recorded, otherwise an update intent is recorded. -/
def Persist (dm : DM) (r : Ref) : DM :=
  let id := getDocumentIDD dm.metadatas dm.heap r
  if id = 0 then
    let (newId, gen) := bsonNewObjectId dm.gen
    { dm with heap := setIDForValue dm.metadatas dm.heap r newId,
              tasks := alSet dm.tasks r .insert,
              gen := gen }
  else { dm with tasks := alSet dm.tasks r .update }

/-- Remove (mongo.go): record a delete intent unconditionally. -/
def Remove (dm : DM) (r : Ref) : DM :=
  { dm with tasks := alSet dm.tasks r .del }

/-- structToMap (mongo.go): project an entity to a flat record; ignored
fields, omitempty zero values and relation fields are skipped, the id field
goes under the key _id. An unregistered type yields the zero metadata, so an
empty record. -/
def structToMapStep (meta : metadata) (h : Heap) (r : Ref)
    (result : MMap) (f : MetaField) : MMap :=
  if f.ignore ∨ (f.omitempty ∧ isZero ((h r).get f.name)) then result
  else if f.hasRelation then result
  else if f.name = meta.idField then alSet result "_id" ((h r).get f.name)
  else alSet result f.key ((h r).get f.name)

def structToMap (metas : metadatas) (h : Heap) (r : Ref) : MMap :=
  let meta := (alGet metas (h r).typeName).getD zeroMetadata
  meta.fields.foldl (structToMapStep meta h r) []

/-- Go slice of entity pointers; a non-slice value panics in Go and is
modelled as the empty slice. -/
def asRefs : BVal → List Ref
  | .vPtrs rs => rs
  | _ => []

/-- The driver calls a flush makes, in order. -/
inductive DriverEvent where
  | ensureIndex (coll : String) (idx : MIndex)
  | upsert (coll : String) (id : Option BVal) (rec : MMap)
  | removeId (coll : String) (id : Option BVal)
deriving Repr, DecidableEq

/-- The mgo driver as an oracle: the outcome of each kind of write call. -/
structure Driver where
  ensureErr : String → MIndex → Option MgoErr := fun _ _ => none
  upsertErr : String → Option BVal → Option MgoErr := fun _ _ => none
  removeErr : String → Option BVal → Option MgoErr := fun _ _ => none

/-- The per-child body of the referenceMany loop of doPersist (mongo.go):
resolve the target id field, generate a fresh identifier when the child id
is zero, collect the identifier, and enqueue a create intent when the
cascade is persist or all. -/
def doPersistManyStep (meta : metadata) (field : MetaField)
    (acc2 : DM × List ObjectId) (doc : Ref) : DM × List ObjectId :=
  let (dm, objectIDs) := acc2
  match meta.findIDField with
  | none => (dm, objectIDs)
  | some idField =>
    let dm :=
      if isZero ((dm.heap doc).get idField.name) then
        let (nid, gen) := bsonNewObjectId dm.gen
        { dm with
          heap := heapSet dm.heap doc
            ((dm.heap doc).set idField.name (.vId nid)),
          gen := gen }
      else dm
    let objectIDs := objectIDs ++ [asId ((dm.heap doc).get idField.name)]
    let dm :=
      if field.relation.cascade = .all ∨ field.relation.cascade = .persist then
        { dm with tasks := alSet dm.tasks doc .insert }
      else dm
    (dm, objectIDs)

/-- doPersist (mongo.go): project, substitute identifier scalars or arrays
for the owning relation fields (generating missing child ids and enqueueing
cascade persist intents), then upsert by id with the record minus _id. -/
def doPersist (drv : Driver) (dm : DM) (r : Ref) :
    DM × List DriverEvent × Option Err :=
  match alGet dm.metadatas (dm.heap r).typeName with
  | none => (dm, [], some .documentNotRegistered)
  | some metaOfDoc =>
    let Map := structToMap dm.metadatas dm.heap r
    let (dm, Map) :=
      if metaOfDoc.hasRelation then
        metaOfDoc.getFieldsWithRelation.foldl
          (fun (acc : DM × MMap) field =>
            let (dm, Map) := acc
            if field.relation.mapped ≠ .mappedBy then
              match field.relation.relation with
              | .referenceMany =>
                match findMetadataByCollectionName dm.metadatas field.relation.targetDocument with
                | some (meta, _) =>
                  let (dm, objectIDs) :=
                    (asRefs ((dm.heap r).get field.name)).foldl
                      (doPersistManyStep meta field) (dm, [])
                  (dm, alSet Map field.key (.vIds objectIDs))
                | none => (dm, alSet Map field.key (.vIds []))
              | .referenceOne =>
                match findMetadataByCollectionName dm.metadatas field.relation.targetDocument with
                | some (meta, _) =>
                  let one := (dm.heap r).get field.name
                  if isZero one then (dm, Map)
                  else
                    match one with
                    | .vPtr (some p) =>
                      (match meta.findIDField with
                      | none => (dm, Map)
                      | some idField =>
                        let dm :=
                          if isZero ((dm.heap p).get idField.name) then
                            let (nid, gen) := bsonNewObjectId dm.gen
                            { dm with
                              heap := heapSet dm.heap p
                                ((dm.heap p).set idField.name (.vId nid)),
                              gen := gen }
                          else dm
                        let dm :=
                          if field.relation.cascade = .all ∨ field.relation.cascade = .persist then
                            { dm with tasks := alSet dm.tasks p .insert }
                          else dm
                        (dm, alSet Map field.key
                          (.vId (asId ((dm.heap p).get idField.name)))))
                    | _ => (dm, Map)
                | none => (dm, Map)
              | .rtZero => (dm, Map)
            else (dm, Map))
          (dm, Map)
      else (dm, Map)
    let id := alGet Map "_id"
    let ev := DriverEvent.upsert metaOfDoc.targetDocument id (stripID Map)
    match drv.upsertErr metaOfDoc.targetDocument id with
    | some e => (dm, [ev], some (.driver e))
    | none => (dm, [ev], none)

/-- The per-field body of the cascade loop of doRemove (mongo.go): the loop
only records delete intents, so it is modelled as a fold over the intent
buffer (the heap is read, never written, inside the loop). Note the source
checks only the cascade here, not the owning side. -/
def doRemoveCascadeStep (metas : metadatas) (hp : Heap) (r : Ref)
    (ts : tasksT) (field : MetaField) : tasksT :=
  if field.relation.cascade = .all ∨ field.relation.cascade = .remove then
    match field.relation.relation with
    | .referenceMany =>
      match findMetadataByCollectionName metas field.relation.targetDocument with
      | none => ts
      | some (meta, _) =>
        (asRefs ((hp r).get field.name)).foldl
          (fun ts doc =>
            match meta.findIDField with
            | none => ts
            | some idField =>
              if ¬isZero ((hp doc).get idField.name) then alSet ts doc .del
              else ts)
          ts
    | .referenceOne =>
      match findMetadataByCollectionName metas field.relation.targetDocument with
      | none => ts
      | some (meta, _) =>
        let one := (hp r).get field.name
        if isZero one then ts
        else
          match one with
          | .vPtr (some p) =>
            (match meta.findIDField with
            | none => ts
            | some idField =>
              if ¬isZero ((hp p).get idField.name) then alSet ts p .del
              else ts)
          | _ => ts
    | .rtZero => ts
  else ts

/-- doRemove (mongo.go): enqueue cascade delete intents for every relation
field with cascade remove or all (the owning-side check of doPersist is
absent here), delete by id, and on success reset the document id to zero. -/
def doRemove (drv : Driver) (dm : DM) (r : Ref) :
    DM × List DriverEvent × Option Err :=
  match alGet dm.metadatas (dm.heap r).typeName with
  | none => (dm, [], some .documentNotRegistered)
  | some metaOfDoc =>
    let Map := structToMap dm.metadatas dm.heap r
    let dm :=
      if metaOfDoc.hasRelation then
        { dm with tasks :=
            (metaOfDoc.getFieldsWithRelation.foldl
              (doRemoveCascadeStep dm.metadatas dm.heap r) dm.tasks) }
      else dm
    let mid := alGet Map "_id"
    let ev := DriverEvent.removeId metaOfDoc.targetDocument mid
    match drv.removeErr metaOfDoc.targetDocument mid with
    | some e => (dm, [ev], some (.driver e))
    | none =>
      ({ dm with heap := setIDForValue dm.metadatas dm.heap r 0 }, [ev], none)

/-- The index-creation loop of Flush: one EnsureIndex call per index, first
error aborts; every attempted call is recorded. -/
def ensureAll (drv : Driver) (coll : String) :
    List MIndex → List DriverEvent × Option Err
  | [] => ([], none)
  | idx :: rest =>
    let ev := DriverEvent.ensureIndex coll idx
    match drv.ensureErr coll idx with
    | some e => ([ev], some (.driver e))
    | none =>
      let (evs, res) := ensureAll drv coll rest
      (ev :: evs, res)

/-- The outcome of a fuelled flush: the buffer drained, the first error, or
the fuel ran out while tasks remained. -/
inductive FlushOutcome where
  | ok
  | err (e : Err)
  | noFuel
deriving Repr, DecidableEq

/-- Flush (mongo.go): repeatedly pop one intent and dispatch it to doRemove
or (after index creation) doPersist, until the buffer is empty or an error
occurs. The pop order of a Go map is unspecified; the model pops the oldest
entry. The source loop has no bound, so the model takes fuel. -/
def flushFuel (drv : Driver) : Nat → DM → DM × List DriverEvent × FlushOutcome
  | 0, dm => if dm.tasks.isEmpty then (dm, [], .ok) else (dm, [], .noFuel)
  | fuel + 1, dm =>
    match dm.tasks with
    | [] => (dm, [], .ok)
    | (document, theTask) :: rest =>
      let dm := { dm with tasks := rest }
      match theTask with
      | .del =>
        (match doRemove drv dm document with
        | (dm, evs, some e) => (dm, evs, .err e)
        | (dm, evs, none) =>
          let (dm', evs', out) := flushFuel drv fuel dm
          (dm', evs ++ evs', out))
      | _ =>
        match getMetadatas dm.metadatas (dm.heap document).typeName with
        | .error e => (dm, [], .err e)
        | .ok metaData =>
          let (evs1, err1) :=
            if metaData.hasFieldWithIndex then
              ensureAll drv metaData.targetDocument metaData.getIndexes
            else ([], none)
          match err1 with
          | some e => (dm, evs1, .err e)
          | none =>
            let (evs2, err2) :=
              if metaData.hasFieldWithComposite then
                ensureAll drv metaData.targetDocument metaData.getComposites
              else ([], none)
            match err2 with
            | some e => (dm, evs1 ++ evs2, .err e)
            | none =>
              match doPersist drv dm document with
              | (dm, evs, some e) => (dm, evs1 ++ evs2 ++ evs, .err e)
              | (dm, evs, none) =>
                let (dm', evs', out) := flushFuel drv fuel dm
                (dm', evs1 ++ evs2 ++ evs ++ evs', out)

/-! Concrete fixtures used by witnesses and counterexamples. All metadata is
obtained through Register, i.e. through getTypeMetadatas, so every scenario
is reachable from the public facade. -/

/-- A struct with a bson _id tag: `ID bson:"_id"`, `Name`. -/
def userFields : List FieldInput :=
  [{ name := "ID", bsonParts := ["_id"] }, { name := "Name" }]

/-- A struct whose identifier carries only the odm id annotation:
`ID odm:"id"`, `Name`. -/
def acctFields : List FieldInput :=
  [{ name := "ID", odmDefs := [⟨"id", []⟩] }, { name := "Name" }]

/-- A struct whose identifier is tagged `bson:"_id,omitempty"`. -/
def omitFields : List FieldInput :=
  [{ name := "ID", bsonParts := ["_id", "omitempty"] }]

def baseHeap : Heap := fun r =>
  if r = 1 then ⟨"User", [("ID", .vId 0), ("Name", .vStr "ann")]⟩
  else if r = 2 then ⟨"User", [("ID", .vId 7), ("Name", .vStr "bob")]⟩
  else if r = 3 then ⟨"Acct", [("ID", .vId 5), ("Name", .vStr "joe")]⟩
  else if r = 4 then ⟨"Omit", [("ID", .vId 0)]⟩
  else ⟨"Ghost", []⟩

/-- A manager with the three fixture types registered and the fixture
heap. -/
def dmBase : DM :=
  let dm0 : DM := { heap := baseHeap }
  let dm1 := (Register dm0 "users" { typeName := "User", fields := userFields }).1
  let dm2 := (Register dm1 "accts" { typeName := "Acct", fields := acctFields }).1
  (Register dm2 "omits" { typeName := "Omit", fields := omitFields }).1

def userMeta : metadata := (alGet dmBase.metadatas "User").getD zeroMetadata

def acctMeta : metadata := (alGet dmBase.metadatas "Acct").getD zeroMetadata

def omitMeta : metadata := (alGet dmBase.metadatas "Omit").getD zeroMetadata

/-- The compiled id field of the User fixture. -/
def userIDField : MetaField := { name := "ID", key := "_id" }

/-- The condition under which one relation field of the removed entity r
enqueues a delete intent for p in doRemove: cascade is remove or all (the
side is NOT consulted), the target collection is registered with a
resolvable id field, and p is a related entity with nonzero identifier (an
element of the slice for referenceMany, the pointed-to entity for
referenceOne). -/
def cascadeDeleteTarget (metas : metadatas) (hp : Heap) (r : Ref)
    (field : MetaField) (p : Ref) : Bool :=
  decide (field.relation.cascade = .all ∨ field.relation.cascade = .remove) &&
  (match findMetadataByCollectionName metas field.relation.targetDocument with
   | none => false
   | some (meta, _) =>
     match meta.findIDField with
     | none => false
     | some idf =>
       match field.relation.relation with
       | .referenceMany =>
         decide (p ∈ asRefs ((hp r).get field.name)) &&
           !(isZero ((hp p).get idf.name))
       | .referenceOne =>
         decide ((hp r).get field.name = .vPtr (some p)) &&
           !(isZero ((hp p).get idf.name))
       | .rtZero => false)

/-- A type with a mapped (non-owning) referenceOne relation that carries
cascade remove: `Friend odm:"referenceOne(targetDocument=qs, mappedBy=QF,
cascade=remove)"`. -/
def pFields : List FieldInput :=
  [{ name := "ID", bsonParts := ["_id"] },
   { name := "Friend", odmDefs := [⟨"referenceOne",
      [("targetDocument", "qs"), ("mappedBy", "QF"), ("cascade", "remove")]⟩] }]

/-- The owning side of the P.Friend relation. -/
def qFields : List FieldInput :=
  [{ name := "ID", bsonParts := ["_id"] },
   { name := "QF", odmDefs := [⟨"referenceOne", [("targetDocument", "ps")]⟩] }]

def c5Heap : Heap := fun r =>
  if r = 11 then ⟨"P", [("ID", .vId 5), ("Friend", .vPtr (some 12))]⟩
  else if r = 12 then ⟨"Q", [("ID", .vId 6), ("QF", .vPtr (some 11))]⟩
  else ⟨"", []⟩

def dmC5 : DM :=
  let dm0 : DM := { heap := c5Heap }
  let dm1 := (Register dm0 "ps" { typeName := "P", fields := pFields }).1
  (Register dm1 "qs" { typeName := "Q", fields := qFields }).1

def pMeta : metadata := (alGet dmC5.metadatas "P").getD zeroMetadata

/-- The relation parameter keys recognized by getTypeMetadatas. -/
def recognizedRelParam (k : String) : Bool :=
  decide (toLower k = "mappedby" ∨ toLower k = "inversedby" ∨
    toLower k = "targetdocument" ∨ toLower k = "cascade" ∨
    toLower k = "storeid" ∨ toLower k = "load")

/-- The definition names recognized by getTypeMetadatas. -/
def recognizedDefName (n : String) : Bool :=
  decide (toLower n = "id" ∨ toLower n = "omitempty" ∨ toLower n = "index" ∨
    toLower n = "composite" ∨ toLower n = "referencemany" ∨
    toLower n = "referenceone")

/-- An odm definition that fails compilation: an unrecognized name, or a
relation definition with an unrecognized parameter key. -/
def badDef (d : TagDef) : Bool :=
  if recognizedDefName d.name then
    if toLower d.name = "referencemany" ∨ toLower d.name = "referenceone" then
      d.params.any (fun p => !(recognizedRelParam p.1))
    else false
  else true

/-- A field skipped whole by getTypeMetadatas: bson key dash or odm dash. -/
def fieldSkipped (fi : FieldInput) : Bool :=
  (match fi.bsonParts with
   | p0 :: _ => trimSpace p0 = "-"
   | [] => false) || fi.odmDash

/-- A struct whose odm tag holds referenceOne(unknownParam=x). -/
def badFields : List FieldInput :=
  [{ name := "ID", bsonParts := ["_id"] },
   { name := "Child",
     odmDefs := [⟨"referenceOne", [("unknownParam", "x")]⟩] }]

/-- The condition under which structToMap skips a field: ignored, omitempty
with a zero value, or relation-bearing. -/
def projSkips (meta : metadata) (hp : Heap) (r : Ref) (f : MetaField) : Bool :=
  f.ignore || (f.omitempty && isZero ((hp r).get f.name)) || f.hasRelation

/-- The record key a non-skipped field writes: _id for the identifier field,
its stored key otherwise. -/
def projKey (meta : metadata) (f : MetaField) : String :=
  if f.name = meta.idField then "_id" else f.key

/-- The last field of the list that writes the record key k in structToMap
(the later write wins in the Go map). -/
def lastWriter (meta : metadata) (hp : Heap) (r : Ref) (k : String) :
    List MetaField → Option MetaField
  | [] => none
  | f :: fs =>
    match lastWriter meta hp r k fs with
    | some g => some g
    | none =>
      if projSkips meta hp r f = false ∧ projKey meta f = k then some f
      else none

/-- Enqueue a create intent for every child, deduplicating by entity
identity (Go map semantics). -/
def enqueueAll (ts : tasksT) (cs : List Ref) : tasksT :=
  cs.foldl (fun ts c => alSet ts c .insert) ts

/-- An entity that flushes in one trivial upsert: registered, no relations,
no single-field or composite indexes, and a driver that accepts the
upsert. -/
def simpleInsertable (drv : Driver) (metas : metadatas) (hp : Heap)
    (r : Ref) : Prop :=
  ∃ meta, alGet metas (hp r).typeName = some meta ∧
    meta.hasRelation = false ∧
    meta.hasFieldWithIndex = false ∧
    meta.hasFieldWithComposite = false ∧
    drv.upsertErr meta.targetDocument
      (alGet (structToMap metas hp r) "_id") = none

/-- The upsert event a relation-free entity produces. -/
def simpleUpsertEv (metas : metadatas) (hp : Heap) (r : Ref) : DriverEvent :=
  DriverEvent.upsert
    ((alGet metas (hp r).typeName).getD zeroMetadata).targetDocument
    (alGet (structToMap metas hp r) "_id")
    (stripID (structToMap metas hp r))

/-- The record doPersist upserts for an owner with one owning referenceMany
field: the projection plus the collected child identifiers at the field
key. -/
def ownerUpsertRecord (metas : metadatas) (hp : Heap) (o : Ref)
    (rf cidf : MetaField) (cs : List Ref) : MMap :=
  alSet (structToMap metas hp o) rf.key
    (.vIds (cs.map (fun c => asId ((hp c).get cidf.name))))

/-- Cascade cycle fixture: O2 cascades persist to C2; D2 cascades persist
back to O2. Flushing persist intents for O2 and D2 re-enqueues O2 after its
commit. -/
def c2CexHeap : Heap := fun r =>
  if r = 21 then ⟨"O2", [("ID", .vId 10), ("Child", .vPtr (some 22))]⟩
  else if r = 22 then ⟨"C2", [("ID", .vId 12)]⟩
  else if r = 23 then ⟨"D2", [("ID", .vId 11), ("Own", .vPtr (some 21))]⟩
  else ⟨"", []⟩

def dmC2Cex : DM :=
  let dm0 : DM := { heap := c2CexHeap }
  let dm1 := (Register dm0 "o2s" { typeName := "O2", fields :=
    [{ name := "ID", bsonParts := ["_id"] },
     { name := "Child", odmDefs := [⟨"referenceOne",
        [("targetDocument", "c2s"), ("cascade", "persist")]⟩] }] }).1
  let dm2 := (Register dm1 "c2s" { typeName := "C2", fields :=
    [{ name := "ID", bsonParts := ["_id"] }] }).1
  let dm3 := (Register dm2 "d2s" { typeName := "D2", fields :=
    [{ name := "ID", bsonParts := ["_id"] },
     { name := "Own", odmDefs := [⟨"referenceOne",
        [("targetDocument", "o2s"), ("cascade", "persist")]⟩] }] }).1
  { dm3 with tasks := [(21, .insert), (23, .insert)] }

/-- Owner with two children fixture for the C2 witness: A has an owning
referenceMany(cascade=persist) to B. -/
def c2WHeap : Heap := fun r =>
  if r = 31 then ⟨"A", [("ID", .vId 40), ("Kids", .vPtrs [32, 33])]⟩
  else if r = 32 then ⟨"B", [("ID", .vId 41)]⟩
  else if r = 33 then ⟨"B", [("ID", .vId 42)]⟩
  else ⟨"", []⟩

def dmC2W : DM :=
  let dm0 : DM := { heap := c2WHeap }
  let dm1 := (Register dm0 "as" { typeName := "A", fields :=
    [{ name := "ID", bsonParts := ["_id"] },
     { name := "Kids", odmDefs := [⟨"referenceMany",
        [("targetDocument", "bs"), ("cascade", "persist")]⟩] }] }).1
  let dm2 := (Register dm1 "bs" { typeName := "B", fields :=
    [{ name := "ID", bsonParts := ["_id"] }] }).1
  { dm2 with tasks := [(31, .insert)] }

def aMeta : metadata := (alGet dmC2W.metadatas "A").getD zeroMetadata

def bMeta : metadata := (alGet dmC2W.metadatas "B").getD zeroMetadata

def kidsField : MetaField :=
  { name := "Kids", key := "odm:kidsids",
    relation := { relation := .referenceMany, targetDocument := "bs",
                  cascade := .persist } }

/-! The relation resolver (resolveRelations / doResolveRelations). The mgo
driver reads are an oracle producing stored records for the query shapes
the resolver issues; Select projections are passed to the oracle. Freshly
fetched documents are unmarshalled into newly allocated heap entities. -/

/-- The bson query shapes doResolveRelations issues. -/
inductive MQuery where
  | keyIn (key : String) (ids : List ObjectId)
  | idIn (ids : List ObjectId)
  | ninAndKeyIn (nin : List ObjectId) (key : String) (ids : List ObjectId)
  | existsAndIdIn (key : String) (ids : List ObjectId)
deriving Repr, DecidableEq

/-- A stored document. -/
abbrev Record := List (String × BVal)

/-- The driver Find oracle: collection, query, selected keys. -/
abbrev FindOracle := String → MQuery → List String → Except MgoErr (List Record)

/-- Go map read on a fetched document; a missing key yields the nil
interface, whose type assertions are modelled by asId / asIds defaults. -/
def recGet (rec : Record) (k : String) : BVal :=
  (alGet rec k).getD (.vId 0)

/-- The mutable state the resolver threads: the entity heap and the
allocator for entities mgo unmarshals into fresh slices. -/
structure RSt where
  heap : Heap
  nextRef : Ref

/-- fetchedDocuments: identifier to already-fetched entity. -/
abbrev Fetched := List (ObjectId × Ref)

/-- Outcome of a fuelled resolver run. -/
inductive ResolveRes where
  | ok (st : RSt) (fetched : Fetched)
  | err (e : Err)
  | noFuel

/-- mgo unmarshalling of a stored record into a fresh entity of the given
type: scalar fields are taken from the record by key (the id field from
_id), relation fields have no matching stored key and stay zero. -/
def unmarshalEntity (meta : metadata) (rec : Record) : EntityData :=
  ⟨meta.structType,
    meta.fields.map (fun f =>
      (f.name,
        if f.hasRelation then
          match f.relation.relation with
          | .referenceMany => BVal.vPtrs []
          | _ => BVal.vPtr none
        else recGet rec (if f.name = meta.idField then "_id" else f.key)))⟩

/-- `.All(collection.Interface())`: allocate one entity per record. -/
def allocAll (st : RSt) (meta : metadata) (recs : List Record) :
    RSt × List Ref :=
  recs.foldl
    (fun (acc : RSt × List Ref) rec =>
      let (st, refs) := acc
      (⟨heapSet st.heap st.nextRef (unmarshalEntity meta rec),
        st.nextRef + 1⟩,
        refs ++ [st.nextRef]))
    (st, [])

/-- `field.Set(reflect.Append(field, v))` on a slice-of-pointers field;
appending to a non-slice panics in Go and is modelled as a no-op. -/
def heapAppendField (st : RSt) (r : Ref) (n : String) (v : Ref) : RSt :=
  match (st.heap r).get n with
  | .vPtrs rs =>
    { st with heap := heapSet st.heap r ((st.heap r).set n (.vPtrs (rs ++ [v]))) }
  | _ => st

/-- `field.Set(v)` on a pointer field. -/
def heapSetField (st : RSt) (r : Ref) (n : String) (v : BVal) : RSt :=
  { st with heap := heapSet st.heap r ((st.heap r).set n v) }

/-- A driver read whose NotFound is treated as the empty result set
(`err != nil && err != mgo.ErrNotFound`). -/
def tolerantFind (oracle : FindOracle) (coll : String) (q : MQuery)
    (sel : List String) : Except MgoErr (List Record) :=
  match oracle coll q sel with
  | .error .notFound => .ok []
  | other => other

/-- doResolveRelations, referenceMany/mappedBy (mongo.go lines 527-598):
query the owning side for documents whose mapped field holds a root id,
fetch the not-yet-fetched ones fully, wire each linked target (preferring
the instance already in fetchedDocuments) into the root's slice field, then
recurse on the freshly fetched batch - with no emptiness check before the
recursion. -/
def resolveManyMapped (oracle : FindOracle) (metas : metadatas)
    (recurse : RSt → List Ref → String → Fetched → ResolveRes)
    (field : MetaField) (srcById : List (ObjectId × Ref))
    (documentIds : List ObjectId) (st : RSt) (fetched : Fetched) :
    ResolveRes :=
  match findMetadataByCollectionName metas field.relation.targetDocument with
  | none => .err .documentNotRegistered
  | some (relatedMetadata, relatedType) =>
    match relatedMetadata.findField field.relation.mappedField with
    | none => .err .fieldNotFound
    | some relatedField =>
      match tolerantFind oracle relatedMetadata.targetDocument
          (.keyIn relatedField.key documentIds) ["_id", relatedField.key] with
      | .error e => .err (.driver e)
      | .ok relatedDocs =>
        let relatedDocsMappedBySourceId : List (ObjectId × List Record) :=
          match relatedField.relation.relation with
          | .referenceMany =>
            relatedDocs.foldl
              (fun m doc =>
                (asIds (recGet doc relatedField.key)).foldl
                  (fun m id => alAppend m id doc) m)
              []
          | .referenceOne =>
            relatedDocs.foldl
              (fun m doc => alAppend m (asId (recGet doc relatedField.key)) doc)
              []
          | .rtZero => []
        let relatedIds :=
          (relatedDocs.map (fun d => asId (recGet d "_id"))).filter
            (fun id => (alGet fetched id).isNone)
        match tolerantFind oracle relatedMetadata.targetDocument
            (.idIn relatedIds) [] with
        | .error e => .err (.driver e)
        | .ok recs =>
          let stRefs := allocAll st relatedMetadata recs
          let st := stRefs.1
          let newRefs := stRefs.2
          let relatedDocsMappedById : List (ObjectId × Ref) :=
            newRefs.foldl
              (fun m nr =>
                alSet m (asId ((st.heap nr).get relatedMetadata.idField)) nr)
              []
          let st := srcById.foldl
            (fun st kv =>
              match alGet relatedDocsMappedBySourceId kv.1 with
              | none => st
              | some docs1 =>
                docs1.foldl
                  (fun st doc =>
                    let id := asId (recGet doc "_id")
                    match alGet fetched id with
                    | some v => heapAppendField st kv.2 field.name v
                    | none =>
                      match alGet relatedDocsMappedById id with
                      | some v => heapAppendField st kv.2 field.name v
                      | none => st)
                  st)
            st
          recurse st newRefs relatedType fetched

/-- doResolveRelations, referenceMany/inversedBy (mongo.go lines 599-667):
read the id arrays stored on the roots, wire already-fetched targets, and -
only when fresh target ids remain - fetch them, wire them in id order and
recurse. The two driver reads here propagate every error, NotFound
included. -/
def resolveManyOwning (oracle : FindOracle) (metas : metadatas)
    (recurse : RSt → List Ref → String → Fetched → ResolveRes)
    (meta : metadata) (field : MetaField) (srcById : List (ObjectId × Ref))
    (documentIds : List ObjectId) (st : RSt) (fetched : Fetched) :
    ResolveRes :=
  match oracle meta.targetDocument (.idIn documentIds) [field.key, "_id"] with
  | .error e => .err (.driver e)
  | .ok results =>
    let resultsKeyedByObjectID : List (ObjectId × Record) :=
      results.foldl (fun m r => alSet m (asId (recGet r "_id")) r) []
    let st := resultsKeyedByObjectID.foldl
      (fun st kv =>
        match alGet srcById kv.1 with
        | none => st
        | some value =>
          if (alGet kv.2 field.key).isNone then st
          else
            (asIds (recGet kv.2 field.key)).foldl
              (fun st relatedID =>
                match alGet fetched relatedID with
                | some doc => heapAppendField st value field.name doc
                | none => st)
              st)
      st
    let relatedObjectIds :=
      (results.foldl
        (fun acc result =>
          acc ++ (if (alGet result field.key).isNone then []
                  else asIds (recGet result field.key)))
        []).filter (fun id => (alGet fetched id).isNone)
    if relatedObjectIds.isEmpty then .ok st fetched
    else
      match findMetadataByCollectionName metas field.relation.targetDocument with
      | none => .err .documentNotRegistered
      | some (relatedMetadata, relatedType) =>
        match oracle field.relation.targetDocument (.idIn relatedObjectIds) [] with
        | .error e => .err (.driver e)
        | .ok recs =>
          let stRefs := allocAll st relatedMetadata recs
          let st := stRefs.1
          let newRefs := stRefs.2
          let st := resultsKeyedByObjectID.foldl
            (fun st kv =>
              match alGet srcById kv.1 with
              | none => st
              | some value =>
                (asIds (recGet kv.2 field.key)).foldl
                  (fun st id =>
                    newRefs.foldl
                      (fun st nr =>
                        if id = getDocumentIDD metas st.heap nr then
                          heapAppendField st value field.name nr
                        else st)
                      st)
                  st)
            st
          recurse st newRefs relatedType fetched

/-- doResolveRelations, referenceOne/mappedBy (mongo.go lines 673-747):
query the owning side excluding the roots themselves, fetch the
not-yet-fetched owners, map each source id to its owner (fetched instances
first), set the root's pointer field, then recurse on the fresh batch -
again with no emptiness check before the recursion. -/
def resolveOneMapped (oracle : FindOracle) (metas : metadatas)
    (recurse : RSt → List Ref → String → Fetched → ResolveRes)
    (field : MetaField) (srcById : List (ObjectId × Ref))
    (documentIds : List ObjectId) (st : RSt) (fetched : Fetched) :
    ResolveRes :=
  match findMetadataByCollectionName metas field.relation.targetDocument with
  | none => .err .documentNotRegistered
  | some (relatedMeta, relatedType) =>
    match relatedMeta.findField field.relation.mappedField with
    | none => .err .fieldNotFound
    | some relatedField =>
      match oracle relatedMeta.targetDocument
          (.ninAndKeyIn documentIds relatedField.key documentIds)
          ["_id", relatedField.key] with
      | .error e => .err (.driver e)
      | .ok relatedDocumentMaps =>
        let pair :=
          match relatedField.relation.relation with
          | .referenceMany =>
            relatedDocumentMaps.foldl
              (fun (acc : List (ObjectId × Record) × List ObjectId) doc =>
                let (m, ids) := acc
                let ids :=
                  if (alGet fetched (asId (recGet doc "_id"))).isNone then
                    ids ++ [asId (recGet doc "_id")]
                  else ids
                let m := (asIds (recGet doc relatedField.key)).foldl
                  (fun m id => alSet m id doc) m
                (m, ids))
              ([], [])
          | _ =>
            relatedDocumentMaps.foldl
              (fun (acc : List (ObjectId × Record) × List ObjectId) doc =>
                let (m, ids) := acc
                let ids :=
                  if (alGet fetched (asId (recGet doc "_id"))).isNone then
                    ids ++ [asId (recGet doc "_id")]
                  else ids
                (alSet m (asId (recGet doc relatedField.key)) doc, ids))
              ([], [])
        let relatedDocumentsMapsMappedByDocumentID := pair.1
        let relatedDocumentIds := pair.2
        match tolerantFind oracle relatedMeta.targetDocument
            (.idIn relatedDocumentIds) [] with
        | .error e => .err (.driver e)
        | .ok recs =>
          let stRefs := allocAll st relatedMeta recs
          let st := stRefs.1
          let newRefs := stRefs.2
          let m1 : List (ObjectId × Ref) :=
            relatedDocumentsMapsMappedByDocumentID.foldl
              (fun m kv =>
                match alGet fetched (asId (recGet kv.2 "_id")) with
                | some document => alSet m kv.1 document
                | none => m)
              []
          let m2 := newRefs.foldl
            (fun m nr =>
              relatedDocumentsMapsMappedByDocumentID.foldl
                (fun m kv =>
                  if asId (recGet kv.2 "_id") =
                      asId ((st.heap nr).get relatedMeta.idField) then
                    alSet m kv.1 nr
                  else m)
                m)
            m1
          let st := srcById.foldl
            (fun st kv =>
              match alGet m2 kv.1 with
              | some relatedDocument =>
                heapSetField st kv.2 field.name (.vPtr (some relatedDocument))
              | none => st)
            st
          recurse st newRefs relatedType fetched

/-- doResolveRelations, referenceOne/inversedBy (mongo.go lines 749-811):
read the scalar ids stored on the roots (where the key exists), wire
already-fetched targets, and - only when fresh ids remain - fetch, wire by
scalar id and recurse. -/
def resolveOneOwning (oracle : FindOracle) (metas : metadatas)
    (recurse : RSt → List Ref → String → Fetched → ResolveRes)
    (meta : metadata) (field : MetaField) (srcById : List (ObjectId × Ref))
    (documentIds : List ObjectId) (st : RSt) (fetched : Fetched) :
    ResolveRes :=
  match tolerantFind oracle meta.targetDocument
      (.existsAndIdIn field.key documentIds) [field.key, "_id"] with
  | .error e => .err (.driver e)
  | .ok results =>
    let resultsKeyedByObjectID : List (ObjectId × Record) :=
      results.foldl (fun m r => alSet m (asId (recGet r "_id")) r) []
    let st := resultsKeyedByObjectID.foldl
      (fun st kv =>
        match alGet kv.2 field.key with
        | some (.vId relatedObjectID) =>
          (match alGet fetched relatedObjectID with
          | some document =>
            (match alGet srcById kv.1 with
            | some value =>
              heapSetField st value field.name (.vPtr (some document))
            | none => st)
          | none => st)
        | _ => st)
      st
    let relatedObjectIds :=
      (results.map (fun result => asId (recGet result field.key))).filter
        (fun id => (alGet fetched id).isNone)
    if relatedObjectIds.isEmpty then .ok st fetched
    else
      match findMetadataByCollectionName metas field.relation.targetDocument with
      | none => .err .documentNotRegistered
      | some (relatedMeta, relatedType) =>
        match tolerantFind oracle field.relation.targetDocument
            (.idIn relatedObjectIds) [] with
        | .error e => .err (.driver e)
        | .ok recs =>
          let stRefs := allocAll st relatedMeta recs
          let st := stRefs.1
          let newRefs := stRefs.2
          let relatedDocumentValuesKeyedByObjectID : List (ObjectId × Ref) :=
            newRefs.foldl
              (fun m nr =>
                alSet m (asId ((st.heap nr).get relatedMeta.idField)) nr)
              []
          let st := srcById.foldl
            (fun st kv =>
              let result := (alGet resultsKeyedByObjectID kv.1).getD []
              let relatedID := asId (recGet result field.key)
              match alGet relatedDocumentValuesKeyedByObjectID relatedID with
              | some relatedResult =>
                heapSetField st kv.2 field.name (.vPtr (some relatedResult))
              | none => st)
            st
          recurse st newRefs relatedType fetched

/-- Dispatch on the four relation shapes (the nested switches of
doResolveRelations). -/
def resolveOneField (oracle : FindOracle) (metas : metadatas)
    (recurse : RSt → List Ref → String → Fetched → ResolveRes)
    (meta : metadata) (field : MetaField) (srcById : List (ObjectId × Ref))
    (documentIds : List ObjectId) (st : RSt) (fetched : Fetched) :
    ResolveRes :=
  match field.relation.relation with
  | .referenceMany =>
    match field.relation.mapped with
    | .mappedBy =>
      resolveManyMapped oracle metas recurse field srcById documentIds st
        fetched
    | _ =>
      resolveManyOwning oracle metas recurse meta field srcById documentIds
        st fetched
  | .referenceOne =>
    match field.relation.mapped with
    | .mappedBy =>
      resolveOneMapped oracle metas recurse field srcById documentIds st
        fetched
    | _ =>
      resolveOneOwning oracle metas recurse meta field srcById documentIds
        st fetched
  | .rtZero => .ok st fetched

/-- The relation-field loop of doResolveRelations: selected-fields
restriction (only meaningful at the top level), lazy skip below the top
level, then the per-field resolution, threading heap state and the fetched
table. -/
def resolveFields (oracle : FindOracle) (metas : metadatas)
    (recurse : RSt → List Ref → String → Fetched → ResolveRes)
    (meta : metadata) (srcById : List (ObjectId × Ref))
    (documentIds : List ObjectId) (top : Bool)
    (selectedFields : List String) :
    List MetaField → RSt → Fetched → ResolveRes
  | [], st, fetched => .ok st fetched
  | field :: rest, st, fetched =>
    if selectedFields.length > 0 ∧ field.name ∉ selectedFields then
      resolveFields oracle metas recurse meta srcById documentIds top
        selectedFields rest st fetched
    else if ¬top ∧ field.relation.load = .lazy then
      resolveFields oracle metas recurse meta srcById documentIds top
        selectedFields rest st fetched
    else
      match resolveOneField oracle metas recurse meta field srcById
          documentIds st fetched with
      | .ok st' fetched' =>
        resolveFields oracle metas recurse meta srcById documentIds top
          selectedFields rest st' fetched'
      | other => other

/-- The body of doResolveRelations (mongo.go lines 474-817): compute top,
look up the batch metadata, key the batch by document id, absorb the batch
into fetchedDocuments, and walk the relation fields. `recurse` is the
recursive call one fuel level down. -/
def doResolveBody (oracle : FindOracle) (metas : metadatas)
    (recurse : RSt → List Ref → String → Fetched → ResolveRes)
    (st : RSt) (documents : List Ref) (batchType : String)
    (fetchedDocuments : Fetched) (selectedFields : List String) :
    ResolveRes :=
  let top := fetchedDocuments.isEmpty
  match getMetadatas metas batchType with
  | .error e => .err e
  | .ok meta =>
    let sourceValuesKeyedBySourceID :=
      documents.foldl
        (fun m r => alSet m (getDocumentIDD metas st.heap r) r) []
    let fetchedDocuments :=
      sourceValuesKeyedBySourceID.foldl
        (fun f kv => alSet f kv.1 kv.2) fetchedDocuments
    if meta.hasRelation then
      let documentIds := sourceValuesKeyedBySourceID.map (fun kv => kv.1)
      resolveFields oracle metas recurse meta sourceValuesKeyedBySourceID
        documentIds top selectedFields meta.getFieldsWithRelation st
        fetchedDocuments
    else .ok st fetchedDocuments

/-- doResolveRelations (mongo.go): the breadth-first recursion. The source
has no termination bound, so the model takes fuel, one unit per recursive
call; `noFuel` marks a run that still recurses when the fuel is gone. -/
def doResolveRelations (oracle : FindOracle) (metas : metadatas) :
    Nat → RSt → List Ref → String → Fetched → List String → ResolveRes
  | 0, _, _, _, _, _ => .noFuel
  | fuel + 1, st, documents, batchType, fetchedDocuments, selectedFields =>
    doResolveBody oracle metas
      (fun st' batch' type' fetched' =>
        doResolveRelations oracle metas fuel st' batch' type' fetched' [])
      st documents batchType fetchedDocuments selectedFields

/-- resolveRelations (mongo.go): a single document is normalized into a
one-element batch (already a list here), and the recursion starts with an
empty fetchedDocuments table. -/
def resolveRelations (oracle : FindOracle) (metas : metadatas) (fuel : Nat)
    (st : RSt) (documents : List Ref) (batchType : String)
    (selectedFields : List String) : ResolveRes :=
  doResolveRelations oracle metas fuel st documents batchType []
    selectedFields

/-- FindID (mongo.go): metadata lookup by the document type, a primary-key
driver read whose error - NotFound included - returns immediately, then
unmarshal into the passed document and resolve its relations. -/
def FindID (oracle : FindOracle)
    (findIdOracle : String → BVal → Except MgoErr Record)
    (metas : metadatas) (fuel : Nat) (st : RSt) (documentID : BVal)
    (r : Ref) : ResolveRes :=
  match alGet metas (st.heap r).typeName with
  | none => .err .documentNotRegistered
  | some meta =>
    match findIdOracle meta.targetDocument documentID with
    | .error e => .err (.driver e)
    | .ok rec =>
      let st : RSt := { st with heap := heapSet st.heap r (unmarshalEntity meta rec) }
      resolveRelations oracle metas fuel st [r] meta.structType []

/-! C1 fixture: a self-referential social type. Friends is an eager
referenceMany mapped by FriendOf; FriendOf is an owning referenceMany.
The database is empty: every driver read returns no documents. -/

/-- `ID bson:"_id"`, `Friends odm:"referenceMany(targetDocument=socials,
mappedBy=FriendOf,load=eager)"`, `FriendOf
odm:"referenceMany(targetDocument=socials)"`. -/
def c1Fields : List FieldInput :=
  [{ name := "ID", bsonParts := ["_id"] },
   { name := "Friends",
     odmDefs := [⟨"referenceMany",
       [("targetDocument", "socials"), ("mappedBy", "FriendOf"),
        ("load", "eager")]⟩] },
   { name := "FriendOf",
     odmDefs := [⟨"referenceMany", [("targetDocument", "socials")]⟩] }]

def c1Heap : Heap := fun r =>
  if r = 9 then
    ⟨"Social", [("ID", .vId 3), ("Friends", .vPtrs []), ("FriendOf", .vPtrs [])]⟩
  else ⟨"Ghost", []⟩

/-- The manager with the Social type registered. -/
def dmC1 : DM :=
  (Register { heap := c1Heap } "socials"
    { typeName := "Social", fields := c1Fields }).1

/-- The compiled metadata of the Social type. -/
def c1meta : metadata := (alGet dmC1.metadatas "Social").getD zeroMetadata

/-- The compiled Friends field. -/
def c1Friends : MetaField :=
  { name := "Friends", key := "odm:friendsids",
    relation :=
      { relation := .referenceMany, targetDocument := "socials",
        mapped := .mappedBy, mappedField := "FriendOf", load := .eager } }

/-- The compiled FriendOf field. -/
def c1FriendOf : MetaField :=
  { name := "FriendOf", key := "odm:friendofids",
    relation := { relation := .referenceMany, targetDocument := "socials" } }

/-- The empty database: every Find returns no documents. -/
def c1Oracle : FindOracle := fun _ _ _ => .ok []

/-! C6 fixtures: NotFound handling. nfOracle answers every relation query
with mgo.ErrNotFound; nfFindId answers every primary-key lookup with
mgo.ErrNotFound; drvNF answers every RemoveId with mgo.ErrNotFound. -/

def nfOracle : FindOracle := fun _ _ _ => .error .notFound

def nfFindId : String → BVal → Except MgoErr Record := fun _ _ => .error .notFound

def drvNF : Driver := { removeErr := fun _ _ => some .notFound }

/-- `ID bson:"_id"`, `Best odm:"referenceOne(targetDocument=profs,
load=eager)"`: an owning one-relation, resolved through the NotFound-
tolerant query path. -/
def c6Fields : List FieldInput :=
  [{ name := "ID", bsonParts := ["_id"] },
   { name := "Best",
     odmDefs := [⟨"referenceOne",
       [("targetDocument", "profs"), ("load", "eager")]⟩] }]

def c6Heap : Heap := fun r =>
  if r = 15 then ⟨"Prof", [("ID", .vId 4), ("Best", .vPtr none)]⟩
  else ⟨"Ghost", []⟩

def dmC6 : DM :=
  (Register { heap := c6Heap } "profs"
    { typeName := "Prof", fields := c6Fields }).1

/-- `ID bson:"_id"`, `Mates odm:"referenceMany(targetDocument=teams,
load=eager)"`: an owning many-relation, whose first query propagates every
driver error. -/
def c6bFields : List FieldInput :=
  [{ name := "ID", bsonParts := ["_id"] },
   { name := "Mates",
     odmDefs := [⟨"referenceMany",
       [("targetDocument", "teams"), ("load", "eager")]⟩] }]

def c6bHeap : Heap := fun r =>
  if r = 16 then ⟨"Team", [("ID", .vId 6), ("Mates", .vPtrs [])]⟩
  else ⟨"Ghost", []⟩

def dmC6b : DM :=
  (Register { heap := c6bHeap } "teams"
    { typeName := "Team", fields := c6bFields }).1

/-- The delete-wins run of C3 against a driver whose RemoveId answers
NotFound: Persist then Remove entity 2 (a User with id 7), then flush. -/
def dmC6del : DM := Remove (Persist dmBase 2) 2

theorem alGet_alSet [DecidableEq α] (m : List (α × β)) (k k' : α) (v : β) :
    alGet (alSet m k v) k' = if k' = k then some v else alGet m k' := by
  induction m with
  | nil =>
    simp only [alSet, alGet]
    rcases eq_or_ne k' k with h | h
    · subst h; simp
    · rw [if_neg (fun hh => h hh.symm), if_neg h]
  | cons p rest ih =>
    obtain ⟨a, b⟩ := p
    simp only [alSet]
    by_cases h1 : a = k
    · subst h1
      rw [if_pos rfl]
      simp only [alGet]
      rcases eq_or_ne k' a with h2 | h2
      · subst h2; simp
      · rw [if_neg (fun hh => h2 hh.symm), if_neg h2,
          if_neg (fun hh => h2 hh.symm)]
    · rw [if_neg h1]
      simp only [alGet, ih]
      rcases eq_or_ne k' k with h2 | h2
      · subst h2
        rw [if_neg (fun hh => h1 hh), if_pos rfl, if_pos rfl]
      · rcases eq_or_ne a k' with h3 | h3
        · rw [if_pos h3, if_pos h3, if_neg h2]
        · rw [if_neg h3, if_neg h3, if_neg h2]

theorem mem_alSet [DecidableEq α] (m : List (α × β)) (k : α) (v : β) (p : α × β)
    (hp : p ∈ alSet m k v) : p = (k, v) ∨ p ∈ m := by
  induction m with
  | nil => simpa [alSet] using hp
  | cons q rest ih =>
    by_cases h1 : q.1 = k
    · obtain ⟨a, b⟩ := q
      simp only [alSet] at hp
      rw [if_pos h1] at hp
      rcases List.mem_cons.mp hp with hp | hp
      · exact Or.inl hp
      · exact Or.inr (List.mem_cons.mpr (Or.inr hp))
    · obtain ⟨a, b⟩ := q
      simp only [alSet] at hp
      rw [if_neg h1] at hp
      rcases List.mem_cons.mp hp with hp | hp
      · exact Or.inr (List.mem_cons.mpr (Or.inl hp))
      · rcases ih hp with hp | hp
        · exact Or.inl hp
        · exact Or.inr (List.mem_cons.mpr (Or.inr hp))

theorem alSet_keys [DecidableEq α] (m : List (α × β)) (k : α) (v : β) :
    (alSet m k v).map Prod.fst =
      if (alGet m k).isSome then m.map Prod.fst
      else m.map Prod.fst ++ [k] := by
  induction m with
  | nil => simp [alSet, alGet]
  | cons q rest ih =>
    obtain ⟨a, b⟩ := q
    by_cases h1 : a = k
    · subst h1
      simp only [alSet, alGet, if_pos rfl]
      simp
    · simp only [alSet, alGet, if_neg h1]
      simp only [List.map_cons, ih]
      by_cases h2 : (alGet rest k).isSome
      · rw [if_pos h2, if_pos h2]
      · rw [if_neg h2, if_neg h2]
        rfl

theorem alGet_isSome_iff [DecidableEq α] (m : List (α × β)) (k : α) :
    (alGet m k).isSome = true ↔ k ∈ m.map Prod.fst := by
  induction m with
  | nil => simp [alGet]
  | cons q rest ih =>
    obtain ⟨a, b⟩ := q
    simp only [alGet, List.map_cons, List.mem_cons]
    by_cases h1 : a = k
    · subst h1
      simp
    · rw [if_neg h1, ih]
      constructor
      · exact fun h => Or.inr h
      · rintro (h | h)
        · exact absurd h.symm h1
        · exact h

/-- flushFuel on an empty buffer is a no-op for any fuel. -/
theorem flushFuel_empty (drv : Driver) (fuel : Nat) (dm : DM)
    (h : dm.tasks = []) : flushFuel drv fuel dm = (dm, [], .ok) := by
  cases fuel <;> simp [flushFuel, h]

theorem entityData_set_typeName (e : EntityData) (n : String) (v : BVal) :
    (e.set n v).typeName = e.typeName := by
  rw [EntityData.set]
  split <;> rfl

theorem setIDForValue_typeName (metas : metadatas) (hp : Heap) (r : Ref)
    (id : ObjectId) (r' : Ref) :
    (setIDForValue metas hp r id r').typeName = (hp r').typeName := by
  simp only [setIDForValue]
  rcases h : alGet metas (hp r).typeName with _ | meta
  · rfl
  · simp only [heapSet]
    by_cases h2 : r' = r
    · rw [if_pos h2, h2, entityData_set_typeName]
    · rw [if_neg h2]

theorem persist_metadatas (dm : DM) (r : Ref) :
    (Persist dm r).metadatas = dm.metadatas := by
  simp only [Persist]
  split <;> rfl

theorem persist_heap_typeName (dm : DM) (r r' : Ref) :
    ((Persist dm r).heap r').typeName = (dm.heap r').typeName := by
  simp only [Persist]
  split
  · exact setIDForValue_typeName dm.metadatas dm.heap r _ r'
  · rfl

/-- C4 (amended): for an entity of a registered type whose identifier field
is stored under the key _id (so findIDField locates the same field that
meta.idField names), Persist with a zero identifier assigns the freshly
generated nonzero identifier and records a create intent, and Persist with a
nonzero identifier records an update intent and leaves the heap unchanged. -/
theorem c4_persist_intents (dm : DM) (r : Ref) (meta : metadata)
    (f : MetaField) (v : ObjectId)
    (hmeta : alGet dm.metadatas (dm.heap r).typeName = some meta)
    (hfind : meta.findIDField = some f)
    (hname : meta.idField = f.name)
    (hval : alGet (dm.heap r).fields f.name = some (.vId v)) :
    (v = 0 →
      (Persist dm r).tasks = alSet dm.tasks r .insert ∧
      ((Persist dm r).heap r).get f.name = .vId (dm.gen + 1) ∧
      dm.gen + 1 ≠ 0) ∧
    (v ≠ 0 →
      (Persist dm r).tasks = alSet dm.tasks r .update ∧
      (Persist dm r).heap = dm.heap) := by
  have hid : getDocumentIDD dm.metadatas dm.heap r = v := by
    simp [getDocumentIDD, getDocumentID, hmeta, hfind, EntityData.get, hval,
      asId]
  constructor
  · intro hv
    rw [Persist, hid, if_pos hv]
    refine ⟨rfl, ?_, Nat.succ_ne_zero dm.gen⟩
    simp [setIDForValue, hmeta, heapSet, EntityData.set, hname, hval,
      EntityData.get, alGet_alSet, bsonNewObjectId]
  · intro hv
    rw [Persist, hid, if_neg hv]
    exact ⟨rfl, rfl⟩

/-- Witness for C4: in the User fixture, Persist of the zero-id entity 1
records a create intent and leaves a nonzero identifier, and Persist of the
nonzero-id entity 2 records an update intent with an unchanged heap. -/
theorem c4_persist_intents_witness :
    (Persist dmBase 1).tasks = [(1, task.insert)] ∧
    ((Persist dmBase 1).heap 1).get "ID" = .vId 1 ∧
    (Persist dmBase 2).tasks = [(2, task.update)] ∧
    (Persist dmBase 2).heap = dmBase.heap := by
  have h1 := (c4_persist_intents dmBase 1 userMeta userIDField 0
    (by decide) (by decide) (by decide) (by decide)).1 rfl
  have h2 := (c4_persist_intents dmBase 2 userMeta userIDField 7
    (by decide) (by decide) (by decide) (by decide)).2 (by decide)
  exact ⟨h1.1, h1.2.1, h2.1, h2.2⟩

/-- Counterexample for C4: for the Acct fixture, whose identifier carries
only the odm id annotation (no bson _id key), the entity 3 has the nonzero
identifier 5, yet Persist records a create intent (not update) and
overwrites the identifier with a fresh one. -/
theorem c4_persist_intents_cex :
    (alGet dmBase.metadatas "Acct").isSome = true ∧
    ((dmBase.heap 3).get "ID" = BVal.vId 5 ∧ acctMeta.idField = "ID") ∧
    (Persist dmBase 3).tasks = [(3, task.insert)] ∧
    ((Persist dmBase 3).heap 3).get "ID" = .vId 1 := by
  decide

/-- C9: findIDField locates the identifier by stored key _id, not by the
recorded idField name; for a registered type with no field stored under _id
(identifier marked only by the odm id annotation), getDocumentID yields
ErrIDFieldNotFound, and Persist records a create intent and assigns a fresh
identifier on every call, even when the identifier value v is already
nonzero. -/
theorem c9_id_key_lookup (dm : DM) (r : Ref) (meta : metadata) (v : ObjectId)
    (hmeta : alGet dm.metadatas (dm.heap r).typeName = some meta)
    (hnoid : meta.findIDField = none)
    (hval : alGet (dm.heap r).fields meta.idField = some (.vId v)) :
    getDocumentID dm.metadatas dm.heap r = .error .idFieldNotFound ∧
    (Persist dm r).tasks = alSet dm.tasks r .insert ∧
    ((Persist dm r).heap r).get meta.idField = .vId (dm.gen + 1) := by
  have herr : getDocumentID dm.metadatas dm.heap r = .error .idFieldNotFound := by
    simp [getDocumentID, hmeta, hnoid]
  have hid : getDocumentIDD dm.metadatas dm.heap r = 0 := by
    simp [getDocumentIDD, herr]
  refine ⟨herr, ?_, ?_⟩
  · rw [Persist, hid, if_pos rfl]
  · rw [Persist, hid, if_pos rfl]
    simp [setIDForValue, hmeta, heapSet, EntityData.set, hval,
      EntityData.get, alGet_alSet, bsonNewObjectId]

/-- Witness for C9: the Acct fixture has identifier 5 (nonzero) stored under
key id; getDocumentID fails, Persist records create and overwrites the
identifier with the fresh id 1. -/
theorem c9_id_key_lookup_witness :
    getDocumentID dmBase.metadatas dmBase.heap 3 = .error .idFieldNotFound ∧
    (Persist dmBase 3).tasks = [(3, task.insert)] ∧
    ((Persist dmBase 3).heap 3).get "ID" = .vId 1 := by
  have h := c9_id_key_lookup dmBase 3 acctMeta 5
    (by decide) (by decide) (by decide)
  exact ⟨h.1, h.2.1, h.2.2⟩

/-- C10: Persist and Remove of a value of an unregistered type return
without error, touch neither the heap nor the registry (so no collection is
contacted; neither function takes the driver at all), and only record an
intent; DocumentNotRegistered surfaces only when Flush drains that intent,
before any driver call (empty event trace). -/
theorem c10_unregistered_deferred (drv : Driver) (dm : DM) (r : Ref)
    (t : task) (fuel : Nat)
    (hunreg : alGet dm.metadatas (dm.heap r).typeName = none) :
    (Persist dm r).tasks = alSet dm.tasks r .insert ∧
    (Persist dm r).heap = dm.heap ∧
    (Persist dm r).metadatas = dm.metadatas ∧
    (Remove dm r).tasks = alSet dm.tasks r .del ∧
    (Remove dm r).heap = dm.heap ∧
    (flushFuel drv (fuel + 1) { dm with tasks := [(r, t)] }).2 =
      ([], .err .documentNotRegistered) := by
  have hid : getDocumentIDD dm.metadatas dm.heap r = 0 := by
    simp [getDocumentIDD, getDocumentID, hunreg]
  refine ⟨?_, ?_, ?_, rfl, rfl, ?_⟩
  · rw [Persist, hid, if_pos rfl]
  · rw [Persist, hid, if_pos rfl]
    simp [setIDForValue, hunreg]
  · rw [Persist, hid, if_pos rfl]
  · cases t <;> simp [flushFuel, doRemove, getMetadatas, hunreg]

/-- Witness for C10: entity 9 of the unregistered Ghost type. -/
theorem c10_unregistered_deferred_witness :
    (Persist dmBase 9).tasks = [(9, task.insert)] ∧
    (Persist dmBase 9).heap = dmBase.heap ∧
    (Remove dmBase 9).tasks = [(9, task.del)] ∧
    (flushFuel {} 1 { dmBase with tasks := [(9, task.del)] }).2 =
      ([], .err .documentNotRegistered) := by
  have h := c10_unregistered_deferred {} dmBase 9 task.del 0 (by decide)
  exact ⟨h.1, h.2.1, h.2.2.2.1, h.2.2.2.2.2⟩

/-- C3 (delete-wins): for an entity of a registered relation-free type and
an empty buffer, Persist then Remove leaves a single delete intent (Remove
overwrites the pending create or update intent in place), and the following
Flush issues exactly one driver call: a RemoveId, never an upsert, whatever
the driver answers. -/
theorem c3_delete_wins (drv : Driver) (dm : DM) (r : Ref) (meta : metadata)
    (fuel : Nat)
    (hempty : dm.tasks = [])
    (hmeta : alGet dm.metadatas (dm.heap r).typeName = some meta)
    (hnorel : meta.hasRelation = false) :
    (Remove (Persist dm r) r).tasks = [(r, .del)] ∧
    (flushFuel drv (fuel + 1) (Remove (Persist dm r) r)).2.1 =
      [DriverEvent.removeId meta.targetDocument
        (alGet (structToMap dm.metadatas (Persist dm r).heap r) "_id")] := by
  have htasks : (Remove (Persist dm r) r).tasks = [(r, task.del)] := by
    simp only [Remove, Persist]
    split <;> simp [hempty, alSet]
  refine ⟨htasks, ?_⟩
  have hm2 : alGet (Remove (Persist dm r) r).metadatas
      (((Remove (Persist dm r) r).heap r).typeName) = some meta := by
    show alGet (Persist dm r).metadatas (((Persist dm r).heap r).typeName) = some meta
    rw [persist_metadatas, persist_heap_typeName]
    exact hmeta
  rw [flushFuel]
  rcases hsplit : (Remove (Persist dm r) r).tasks with _ | ⟨⟨r', t'⟩, rest⟩
  · rw [htasks] at hsplit; cases hsplit
  · rw [htasks] at hsplit
    injection hsplit with h1 h2
    injection h1 with hr ht
    subst hr; subst ht; subst h2
    simp only
    rw [doRemove]
    have hm3 : alGet (Remove (Persist dm r) r).metadatas
        ((({ Remove (Persist dm r) r with tasks := [] } : DM).heap r).typeName) =
        some meta := hm2
    rw [hm3]
    simp only [hnorel, Bool.false_eq_true, if_false]
    have hheap : ({ Remove (Persist dm r) r with tasks := [] } : DM).heap =
        (Persist dm r).heap := rfl
    have hmetas : ({ Remove (Persist dm r) r with tasks := [] } : DM).metadatas =
        dm.metadatas := persist_metadatas dm r
    rw [hheap, hmetas]
    rcases herr : drv.removeErr meta.targetDocument
        (alGet (structToMap dm.metadatas (Persist dm r).heap r) "_id") with _ | e
    · simp only
      rw [flushFuel_empty drv fuel _ rfl]
      simp
    · simp only

/-- Witness for C3: Persist then Remove of the User entity 2 leaves one
delete intent, and the flush trace is one RemoveId on collection users with
id 7 and no upsert. -/
theorem c3_delete_wins_witness :
    (Remove (Persist dmBase 2) 2).tasks = [(2, task.del)] ∧
    (flushFuel {} 1 (Remove (Persist dmBase 2) 2)).2.1 =
      [DriverEvent.removeId "users" (some (BVal.vId 7))] := by
  have h := c3_delete_wins {} dmBase 2 userMeta 0
    (by decide) (by decide) (by decide)
  exact ⟨h.1, h.2⟩

theorem alGet_foldl_delSet (hp : Heap) (idn : String) (p : Ref)
    (docs : List Ref) (ts : tasksT) :
    alGet (docs.foldl (fun ts doc =>
        if ¬isZero ((hp doc).get idn) then alSet ts doc .del else ts) ts) p =
      if p ∈ docs ∧ ¬isZero ((hp p).get idn) then some .del
      else alGet ts p := by
  induction docs generalizing ts with
  | nil => simp
  | cons d docs ih =>
    rw [List.foldl_cons, ih]
    by_cases hmem : p ∈ docs ∧ ¬isZero ((hp p).get idn)
    · rw [if_pos hmem, if_pos ⟨List.mem_cons.mpr (Or.inr hmem.1), hmem.2⟩]
    · rw [if_neg hmem]
      by_cases hpd : p = d
      · subst hpd
        by_cases hnz : isZero ((hp p).get idn) = true
        · rw [if_neg (fun hc => hc hnz), if_neg (by
            rintro ⟨-, hq⟩
            exact hq hnz)]
        · rw [if_pos hnz, if_pos ⟨List.mem_cons_self p docs, hnz⟩,
            alGet_alSet, if_pos rfl]
      · have hout : ¬(p ∈ d :: docs ∧ ¬isZero ((hp p).get idn) = true) := by
          rintro ⟨hin, hnz⟩
          rcases List.mem_cons.mp hin with h | h
          · exact hpd h
          · exact hmem ⟨h, hnz⟩
        rw [if_neg hout]
        by_cases hnzd : isZero ((hp d).get idn) = true
        · rw [if_neg (fun hc => hc hnzd)]
        · rw [if_pos hnzd, alGet_alSet, if_neg hpd]

theorem foldl_fixed_acc (l : List α) (ts : β) :
    l.foldl (fun acc (_ : α) => acc) ts = ts := by
  induction l generalizing ts with
  | nil => rfl
  | cons x xs ih => rw [List.foldl_cons, ih]

theorem alGet_doRemoveCascadeStep (metas : metadatas) (hp : Heap) (r : Ref)
    (ts : tasksT) (field : MetaField) (p : Ref) :
    alGet (doRemoveCascadeStep metas hp r ts field) p =
      if cascadeDeleteTarget metas hp r field p then some .del
      else alGet ts p := by
  rw [doRemoveCascadeStep, cascadeDeleteTarget]
  by_cases hc : field.relation.cascade = .all ∨ field.relation.cascade = .remove
  · rw [if_pos hc]
    cases hrel : field.relation.relation with
    | rtZero =>
      rcases hm : findMetadataByCollectionName metas field.relation.targetDocument
        with _ | ⟨meta, tn⟩
      · simp [hm, hc]
      · rcases hid : meta.findIDField with _ | idf <;> simp [hm, hid, hc]
    | referenceMany =>
      rcases hm : findMetadataByCollectionName metas field.relation.targetDocument
        with _ | ⟨meta, tn⟩
      · simp [hm, hc]
      · rcases hid : meta.findIDField with _ | idf
        · simp only [hm, hid, foldl_fixed_acc]
          simp [hc, hid]
        · simp only [hm, hid]
          rw [alGet_foldl_delSet hp idf.name p]
          by_cases hmem : p ∈ asRefs ((hp r).get field.name) ∧
              ¬isZero ((hp p).get idf.name)
          · rw [if_pos hmem]
            simp [hc, hmem.1, hmem.2]
          · rw [if_neg hmem]
            rw [if_neg ?hside]
            case hside =>
              simp only [Bool.and_eq_true, decide_eq_true_eq,
                Bool.not_eq_true']
              rintro ⟨-, hin, hnz⟩
              exact hmem ⟨hin, by simp [hnz]⟩
    | referenceOne =>
      rcases hm : findMetadataByCollectionName metas field.relation.targetDocument
        with _ | ⟨meta, tn⟩
      · simp [hm, hc]
      · rcases hone : (hp r).get field.name with i | s | n | orf | rs | ids
        · rcases hid : meta.findIDField with _ | idf <;>
            simp [hm, hone, hid, hc, isZero]
        · rcases hid : meta.findIDField with _ | idf <;>
            simp [hm, hone, hid, hc, isZero]
        · rcases hid : meta.findIDField with _ | idf <;>
            simp [hm, hone, hid, hc, isZero]
        · rcases orf with _ | p'
          · rcases hid : meta.findIDField with _ | idf <;>
              simp [hm, hone, hid, hc, isZero]
          · rcases hid : meta.findIDField with _ | idf
            · simp [hm, hone, hid, hc, isZero]
            · have hzv : isZero (BVal.vPtr (some p')) = false := rfl
              by_cases hnz : isZero ((hp p').get idf.name) = true
              · simp only [hm, hone, hid, hzv, Bool.false_eq_true, if_false]
                rw [if_neg (fun hcc => hcc hnz), if_neg ?hs1]
                case hs1 =>
                  simp only [Bool.and_eq_true, decide_eq_true_eq,
                    Bool.not_eq_true']
                  rintro ⟨-, hv, hz⟩
                  injection hv with hv
                  injection hv with hv
                  rw [← hv] at hz
                  rw [hnz] at hz
                  cases hz
              · simp only [hm, hone, hid, hzv, Bool.false_eq_true, if_false]
                rw [if_pos hnz, alGet_alSet]
                by_cases hpp : p = p'
                · subst hpp
                  rw [if_pos rfl, if_pos ?hs2]
                  case hs2 => simp [hc, hnz]
                · rw [if_neg hpp, if_neg ?hs3]
                  case hs3 =>
                    simp only [Bool.and_eq_true, decide_eq_true_eq]
                    rintro ⟨-, hv, -⟩
                    injection hv with hv
                    injection hv with hv
                    exact hpp hv.symm
        · rcases hid : meta.findIDField with _ | idf <;>
            simp [hm, hone, hid, hc, isZero]
        · rcases hid : meta.findIDField with _ | idf <;>
            simp [hm, hone, hid, hc, isZero]
  · rw [if_neg hc]
    push_neg at hc
    simp [hc.1, hc.2]

theorem alGet_doRemoveCascade (metas : metadatas) (hp : Heap) (r : Ref)
    (p : Ref) (fs : List MetaField) (ts : tasksT) :
    alGet (fs.foldl (doRemoveCascadeStep metas hp r) ts) p =
      if fs.any (fun f => cascadeDeleteTarget metas hp r f p) then some .del
      else alGet ts p := by
  induction fs generalizing ts with
  | nil => simp
  | cons f fs ih =>
    rw [List.foldl_cons, ih, List.any_cons]
    by_cases hf : cascadeDeleteTarget metas hp r f p = true
    · by_cases hfs : fs.any (fun f => cascadeDeleteTarget metas hp r f p) = true
      · rw [if_pos hfs, if_pos (by simp [hf, hfs])]
      · rw [if_neg hfs, alGet_doRemoveCascadeStep, if_pos hf,
          if_pos (by simp [hf])]
    · by_cases hfs : fs.any (fun f => cascadeDeleteTarget metas hp r f p) = true
      · rw [if_pos hfs, if_pos (by simp [hfs])]
      · rw [if_neg hfs, alGet_doRemoveCascadeStep, if_neg hf,
          if_neg (by simp [hf, hfs])]

theorem getFieldsWithRelation_eq_nil (meta : metadata)
    (h : meta.hasRelation = false) : meta.getFieldsWithRelation = [] := by
  rw [metadata.getFieldsWithRelation, List.filter_eq_nil_iff]
  intro f hf
  rw [metadata.hasRelation] at h
  intro hrel
  have := List.any_eq_true.mpr ⟨f, hf, hrel⟩
  rw [h] at this
  cases this

/-- C5 (amended): during doRemove of a registered entity, a delete intent
for p is present afterwards exactly when it was already pending or some
relation field with cascade remove or all targets p — regardless of the
relation side (mapped relations also enqueue, unlike in doPersist); for a
many-relation p must be an element of the slice with nonzero identifier, for
a one-relation p must be the pointed-to entity with nonzero identifier, and
the target collection must be registered with a resolvable id field. -/
theorem c5_remove_cascade (drv : Driver) (dm : DM) (r p : Ref)
    (meta : metadata)
    (hmeta : alGet dm.metadatas (dm.heap r).typeName = some meta) :
    alGet (doRemove drv dm r).1.tasks p = some .del ↔
      (alGet dm.tasks p = some .del ∨
        (meta.getFieldsWithRelation.any
          (fun f => cascadeDeleteTarget dm.metadatas dm.heap r f p)) = true) := by
  rw [doRemove]
  rw [hmeta]
  simp only
  by_cases hrel : meta.hasRelation = true
  · rw [if_pos hrel]
    rcases herr : drv.removeErr meta.targetDocument
        (alGet (structToMap dm.metadatas dm.heap r) "_id") with _ | e
    all_goals
      simp only [alGet_doRemoveCascade]
      by_cases hany : (meta.getFieldsWithRelation.any
          (fun f => cascadeDeleteTarget dm.metadatas dm.heap r f p)) = true
      · rw [if_pos hany]
        simp [hany]
      · rw [if_neg hany]
        simp [hany]
  · rw [if_neg hrel]
    rw [getFieldsWithRelation_eq_nil meta (by simpa using hrel)]
    rcases herr : drv.removeErr meta.targetDocument
        (alGet (structToMap dm.metadatas dm.heap r) "_id") with _ | e <;>
      simp

/-- Counterexample for C5 as stated: the Friend relation of P is mapped
(side = mappedBy, non-owning), yet doRemove of the P entity 11 enqueues a
delete intent for the related Q entity 12; the claim says mapped relations
enqueue nothing. -/
theorem c5_remove_cascade_cex :
    (pMeta.findField "Friend").map (fun f => f.relation.mapped) =
      some relationMap.mappedBy ∧
    alGet (doRemove {} dmC5 11).1.tasks 12 = some task.del := by
  decide

/-- Witness for C5: the characterization applied to the concrete mapped
cascade-remove fixture. -/
theorem c5_remove_cascade_witness :
    alGet (doRemove {} dmC5 11).1.tasks 12 = some task.del :=
  (c5_remove_cascade {} dmC5 11 12 pMeta (by decide)).mpr (Or.inr (by decide))

theorem applyRelParam_ok (rel : relation) (p : String × String)
    (h : recognizedRelParam p.1 = true) :
    ∃ rel', applyRelParam rel p = .ok rel' := by
  rw [applyRelParam]
  simp only [recognizedRelParam, decide_eq_true_eq] at h
  rcases h with h | h | h | h | h | h <;> rw [h] <;> exact ⟨_, rfl⟩

theorem applyRelParam_bad (rel : relation) (p : String × String)
    (h : recognizedRelParam p.1 = false) :
    applyRelParam rel p = .error .invalidAnnot := by
  rw [applyRelParam]
  split
  all_goals
    first
    | rfl
    | (exfalso; simp only [recognizedRelParam, decide_eq_false_iff_not] at h
       exact h (by simp [*]))

theorem applyRelParam_err (rel : relation) (p : String × String) (e : Err)
    (h : applyRelParam rel p = .error e) : e = .invalidAnnot := by
  rw [applyRelParam] at h
  split at h <;> simp_all

theorem applyRelParams_bad (rel : relation) (mf : MetaField)
    (ps : List (String × String))
    (h : ps.any (fun p => !(recognizedRelParam p.1)) = true) :
    applyRelParams rel mf ps = .error .invalidAnnot := by
  induction ps generalizing rel mf with
  | nil => simp at h
  | cons p ps ih =>
    rw [applyRelParams]
    simp only [List.any_cons, Bool.or_eq_true, Bool.not_eq_true'] at h
    by_cases hp : recognizedRelParam p.1 = true
    · obtain ⟨rel', hok⟩ := applyRelParam_ok rel p hp
      rw [hok]
      apply ih
      rcases h with h | h
      · rw [hp] at h; cases h
      · simpa using h
    · rw [applyRelParam_bad rel p (by simpa using hp)]

theorem applyRelParams_err (rel : relation) (mf : MetaField)
    (ps : List (String × String)) (e : Err)
    (h : applyRelParams rel mf ps = .error e) : e = .invalidAnnot := by
  induction ps generalizing rel mf with
  | nil => cases h
  | cons p ps ih =>
    rw [applyRelParams] at h
    rcases hr : applyRelParam rel p with e' | rel'
    · rw [hr] at h
      injection h with h
      exact (applyRelParam_err rel p e' hr) ▸ h.symm
    · rw [hr] at h
      exact ih _ _ h

theorem processDef_bad (meta : metadata) (mf : MetaField) (fn : String)
    (d : TagDef) (h : badDef d = true) :
    processDef meta mf fn d = .error .invalidAnnot := by
  rw [processDef]
  split
  case h_1 heq =>
    exfalso
    simp [badDef, recognizedDefName, heq] at h
  case h_2 heq =>
    exfalso
    simp [badDef, recognizedDefName, heq] at h
  case h_3 heq =>
    exfalso
    simp [badDef, recognizedDefName, heq] at h
  case h_4 heq =>
    exfalso
    simp [badDef, recognizedDefName, heq] at h
  case h_5 heq =>
    have hps : d.params.any (fun p => !(recognizedRelParam p.1)) = true := by
      simpa [badDef, recognizedDefName, heq] using h
    rw [applyRelParams_bad _ _ _ hps]
  case h_6 heq =>
    have hps : d.params.any (fun p => !(recognizedRelParam p.1)) = true := by
      simpa [badDef, recognizedDefName, heq] using h
    rw [applyRelParams_bad _ _ _ hps]
  case h_7 => rfl

theorem processDef_err (meta : metadata) (mf : MetaField) (fn : String)
    (d : TagDef) (e : Err)
    (h : processDef meta mf fn d = .error e) : e = .invalidAnnot := by
  rw [processDef] at h
  split at h
  case h_5 =>
    rcases hr : applyRelParams { zeroRelation with relation := .referenceMany }
        { mf with key := "odm:" ++ toLower fn ++ "ids" } d.params with e' | mf'
    · rw [hr] at h
      injection h with h
      exact (applyRelParams_err _ _ _ _ hr) ▸ h.symm
    · rw [hr] at h; cases h
  case h_6 =>
    rcases hr : applyRelParams { zeroRelation with relation := .referenceOne }
        { mf with key := "odm:" ++ toLower fn ++ "id" } d.params with e' | mf'
    · rw [hr] at h
      injection h with h
      exact (applyRelParams_err _ _ _ _ hr) ▸ h.symm
    · rw [hr] at h; cases h
  all_goals simp_all

theorem processDefs_bad (meta : metadata) (mf : MetaField) (fn : String)
    (ds : List TagDef) (h : ds.any badDef = true) :
    processDefs meta mf fn ds = .error .invalidAnnot := by
  induction ds generalizing meta mf with
  | nil => simp at h
  | cons d ds ih =>
    rw [processDefs]
    rcases hr : processDef meta mf fn d with e | ⟨meta', mf'⟩
    · have he := processDef_err meta mf fn d e hr
      subst he
      rfl
    · simp only [List.any_cons, Bool.or_eq_true] at h
      rcases h with h | h
      · rw [processDef_bad meta mf fn d h] at hr; cases hr
      · exact ih meta' mf' h

theorem processDefs_err (meta : metadata) (mf : MetaField) (fn : String)
    (ds : List TagDef) (e : Err)
    (h : processDefs meta mf fn ds = .error e) : e = .invalidAnnot := by
  induction ds generalizing meta mf with
  | nil => cases h
  | cons d ds ih =>
    rw [processDefs] at h
    rcases hr : processDef meta mf fn d with e' | ⟨meta', mf'⟩
    · rw [hr] at h
      injection h with h
      exact (processDef_err meta mf fn d e' hr) ▸ h.symm
    · rw [hr] at h
      exact ih meta' mf' h

theorem compileField_bad (allFields : List FieldInput) (meta : metadata)
    (fi : FieldInput) (hskip : fieldSkipped fi = false)
    (hbad : fi.odmDefs.any badDef = true) :
    compileField allFields meta fi = .error .invalidAnnot := by
  have hpd : ∀ (m : metadata) (mf : MetaField),
      processDefs m mf fi.name fi.odmDefs = .error .invalidAnnot :=
    fun m mf => processDefs_bad m mf fi.name fi.odmDefs hbad
  rw [fieldSkipped] at hskip
  rw [Bool.or_eq_false_iff] at hskip
  obtain ⟨h1, hdash⟩ := hskip
  rcases hb : fi.bsonParts with _ | ⟨p0, rest⟩
  · simp [compileField, hb, hdash, hpd]
  · rw [hb] at h1
    simp only [decide_eq_false_iff_not] at h1
    by_cases hkey : trimSpace p0 = ""
    · simp [compileField, hb, hkey, hdash, hpd]
    · by_cases hid : trimSpace p0 = "_id"
      · simp [compileField, hb, hkey, hid, h1, hdash, hpd]
      · simp [compileField, hb, hkey, hid, h1, hdash, hpd]

theorem compileField_err (allFields : List FieldInput) (meta : metadata)
    (fi : FieldInput) (e : Err)
    (h : compileField allFields meta fi = .error e) : e = .invalidAnnot := by
  rw [compileField] at h
  rcases hb : fi.bsonParts with _ | ⟨p0, rest⟩ <;> rw [hb] at h
  · simp only [Bool.false_eq_true, if_false] at h
    rcases hdash : fi.odmDash <;> rw [hdash] at h
    · simp only [Bool.false_eq_true, if_false] at h
      split at h
      · rename_i e' heq
        injection h with h
        exact (processDefs_err _ _ _ _ _ heq) ▸ h.symm
      · cases h
    · cases h
  · by_cases hkey : trimSpace p0 = ""
    · simp only [hkey, ne_eq, not_true_eq_false, Bool.false_eq_true,
        if_false] at h
      rcases hdash : fi.odmDash <;> rw [hdash] at h
      · simp only [Bool.false_eq_true, if_false] at h
        split at h
        · rename_i e' heq
          injection h with h
          exact (processDefs_err _ _ _ _ _ heq) ▸ h.symm
        · cases h
      · cases h
    · by_cases hdsh : trimSpace p0 = "-"
      · have hid : ¬trimSpace p0 = "_id" := by rw [hdsh]; decide
        simp [hkey, hdsh, hid] at h
      · simp only [hkey, hdsh, ne_eq, not_false_eq_true, if_true,
          if_false] at h
        by_cases hid : trimSpace p0 = "_id"
        all_goals
          simp only [hid, if_true, if_false, Bool.false_eq_true] at h
          rcases hdash : fi.odmDash <;> rw [hdash] at h
          · simp only [Bool.false_eq_true, if_false] at h
            split at h
            · rename_i e' heq
              injection h with h
              exact (processDefs_err _ _ _ _ _ heq) ▸ h.symm
            · cases h
          · cases h

theorem getTypeMetadatasAux_bad (allFields : List FieldInput)
    (meta : metadata) (fis : List FieldInput)
    (h : ∃ fi ∈ fis, fieldSkipped fi = false ∧ fi.odmDefs.any badDef = true) :
    getTypeMetadatasAux allFields meta fis = .error .invalidAnnot := by
  induction fis generalizing meta with
  | nil => simp at h
  | cons fi fis ih =>
    rw [getTypeMetadatasAux]
    rcases hr : compileField allFields meta fi with e | ⟨meta', mfo⟩
    · have he := compileField_err allFields meta fi e hr
      subst he
      rfl
    · obtain ⟨fi', hmem, hsk, hbad⟩ := h
      rcases List.mem_cons.mp hmem with hfi | hfi
      · subst hfi
        rw [compileField_bad allFields meta fi' hsk hbad] at hr
        cases hr
      · rcases mfo with _ | mf <;> exact ih _ ⟨fi', hfi, hsk, hbad⟩

/-- C7: Register fails with InvalidAnnotation whenever some field that is
not skipped by a dash tag carries an odm definition with an unrecognized
name, or a referenceOne/referenceMany definition with an unrecognized
parameter key; the registry (and the whole manager) is left unchanged. -/
theorem c7_register_invalid (dm : DM) (targetDocument : String)
    (inp : RegisterInput)
    (hptr : inp.isPtr = true) (hstruct : inp.isStruct = true)
    (h : ∃ fi ∈ inp.fields,
      fieldSkipped fi = false ∧ fi.odmDefs.any badDef = true) :
    getTypeMetadatas inp.fields = .error .invalidAnnot ∧
    Register dm targetDocument inp = (dm, some .invalidAnnot) := by
  have hg : getTypeMetadatas inp.fields = .error .invalidAnnot :=
    getTypeMetadatasAux_bad inp.fields zeroMetadata inp.fields h
  refine ⟨hg, ?_⟩
  rw [Register, hptr, hstruct]
  simp [hg]

/-- Witness for C7: registering the unknownParam fixture fails with
InvalidAnnotation and leaves the manager untouched. -/
theorem c7_register_invalid_witness :
    getTypeMetadatas badFields = .error .invalidAnnot ∧
    Register dmBase "bads" { typeName := "Bad", fields := badFields } =
      (dmBase, some .invalidAnnot) := by
  have h := c7_register_invalid dmBase "bads"
    { typeName := "Bad", fields := badFields } rfl rfl
    ⟨{ name := "Child", odmDefs := [⟨"referenceOne", [("unknownParam", "x")]⟩] },
      by decide, by decide, by decide⟩
  exact h

theorem alGet_structToMapStep (meta : metadata) (hp : Heap) (r : Ref)
    (acc : MMap) (f : MetaField) (k : String) :
    alGet (structToMapStep meta hp r acc f) k =
      if projSkips meta hp r f = false ∧ projKey meta f = k
      then some ((hp r).get f.name)
      else alGet acc k := by
  rw [structToMapStep]
  by_cases hig : f.ignore = true ∨ (f.omitempty = true ∧
      isZero ((hp r).get f.name) = true)
  · rw [if_pos hig, if_neg ?hi]
    case hi =>
      rintro ⟨hsk, -⟩
      rw [projSkips] at hsk
      rcases hig with hig | ⟨h1, h2⟩
      · simp [hig] at hsk
      · simp [h1, h2] at hsk
  · rw [if_neg hig]
    by_cases hrel : f.hasRelation = true
    · rw [if_pos hrel, if_neg ?hr]
      case hr =>
        rintro ⟨hsk, -⟩
        rw [projSkips] at hsk
        simp [hrel] at hsk
    · rw [if_neg hrel]
      have hsk : projSkips meta hp r f = false := by
        rw [projSkips]
        push_neg at hig
        simp [hig.1, hrel]
        intro ho
        simpa [ho] using hig.2
      by_cases hidf : f.name = meta.idField
      · rw [if_pos hidf, alGet_alSet]
        by_cases hk : k = "_id"
        · rw [if_pos hk, if_pos ⟨hsk, by simp [projKey, hidf, hk]⟩]
        · rw [if_neg hk, if_neg ?hk2]
          case hk2 =>
            rintro ⟨-, hpk⟩
            rw [projKey, if_pos hidf] at hpk
            exact hk hpk.symm
      · rw [if_neg hidf, alGet_alSet]
        by_cases hk : k = f.key
        · rw [if_pos hk, if_pos ⟨hsk, by simp [projKey, hidf, hk]⟩]
        · rw [if_neg hk, if_neg ?hk3]
          case hk3 =>
            rintro ⟨-, hpk⟩
            rw [projKey, if_neg hidf] at hpk
            exact hk hpk.symm

theorem alGet_structToMap_fold (meta : metadata) (hp : Heap) (r : Ref)
    (k : String) (fs : List MetaField) (acc : MMap) :
    alGet (fs.foldl (structToMapStep meta hp r) acc) k =
      match lastWriter meta hp r k fs with
      | some f => some ((hp r).get f.name)
      | none => alGet acc k := by
  induction fs generalizing acc with
  | nil => rfl
  | cons f fs ih =>
    rw [List.foldl_cons, ih, lastWriter]
    rcases hlw : lastWriter meta hp r k fs with _ | g
    · rw [alGet_structToMapStep]
      by_cases hw : projSkips meta hp r f = false ∧ projKey meta f = k
      · rw [if_pos hw, if_pos hw]
      · rw [if_neg hw, if_neg hw]
    · rfl

theorem lastWriter_mem (meta : metadata) (hp : Heap) (r : Ref) (k : String)
    (fs : List MetaField) (g : MetaField)
    (h : lastWriter meta hp r k fs = some g) :
    g ∈ fs ∧ projSkips meta hp r g = false ∧ projKey meta g = k := by
  induction fs with
  | nil => cases h
  | cons f fs ih =>
    rw [lastWriter] at h
    rcases hlw : lastWriter meta hp r k fs with _ | g' <;> rw [hlw] at h
    · by_cases hw : projSkips meta hp r f = false ∧ projKey meta f = k
      · rw [if_pos hw] at h
        injection h with h
        cases h
        exact ⟨List.mem_cons_self _ _, hw⟩
      · rw [if_neg hw] at h
        cases h
    · injection h with h
      cases h
      obtain ⟨h1, h2⟩ := ih hlw
      exact ⟨List.mem_cons.mpr (Or.inr h1), h2⟩

theorem lastWriter_none (meta : metadata) (hp : Heap) (r : Ref) (k : String)
    (fs : List MetaField)
    (h : ∀ g ∈ fs, projSkips meta hp r g = false → projKey meta g ≠ k) :
    lastWriter meta hp r k fs = none := by
  induction fs with
  | nil => rfl
  | cons f fs ih =>
    rw [lastWriter, ih (fun g hg => h g (List.mem_cons.mpr (Or.inr hg)))]
    rw [if_neg ?hn]
    case hn =>
      rintro ⟨h1, h2⟩
      exact h f (List.mem_cons_self f fs) h1 h2

theorem lastWriter_unique (meta : metadata) (hp : Heap) (r : Ref)
    (k : String) (fs : List MetaField) (f : MetaField)
    (hf : f ∈ fs) (hsk : projSkips meta hp r f = false)
    (hpk : projKey meta f = k)
    (huniq : ∀ g ∈ fs, projKey meta g = k →
      projSkips meta hp r g = false → g = f) :
    lastWriter meta hp r k fs = some f := by
  induction fs with
  | nil => cases hf
  | cons g fs ih =>
    rw [lastWriter]
    rcases hlw : lastWriter meta hp r k fs with _ | h'
    · rcases List.mem_cons.mp hf with hfg | hin
      · cases hfg
        rw [if_pos ⟨hsk, hpk⟩]
      · have := ih hin (fun g' hg' => huniq g' (List.mem_cons.mpr (Or.inr hg')))
        rw [this] at hlw
        cases hlw
    · obtain ⟨hmem, hs, hk⟩ := lastWriter_mem meta hp r k fs h' hlw
      rw [huniq h' (List.mem_cons.mpr (Or.inr hmem)) hk hs]

/-- C8 (amended): for a registered entity, a field f writing record key k
(its stored key, or _id for the identifier field) that no other non-skipped
field writes, the projected record holds k = field value exactly when the
field is not skipped, i.e. when the value is nonzero or omitEmpty is false
(and the field is not ignored and carries no relation); in particular the
identifier is written under _id exactly when it is nonzero or its omitEmpty
flag is false, and relation-bearing fields contribute no entry. -/
theorem c8_projection (metas : metadatas) (hp : Heap) (r : Ref) (k : String)
    (meta : metadata) (f : MetaField)
    (hmeta : alGet metas (hp r).typeName = some meta)
    (hf : f ∈ meta.fields)
    (hkey : projKey meta f = k)
    (huniq : ∀ g ∈ meta.fields, projKey meta g = k →
      projSkips meta hp r g = false → g = f) :
    alGet (structToMap metas hp r) k =
      if projSkips meta hp r f = false then some ((hp r).get f.name)
      else none := by
  rw [structToMap]
  rw [hmeta]
  simp only [Option.getD_some]
  rw [alGet_structToMap_fold]
  by_cases hsk : projSkips meta hp r f = false
  · rw [lastWriter_unique meta hp r k meta.fields f hf hsk hkey huniq,
      if_pos hsk]
  · rw [lastWriter_none meta hp r k meta.fields ?hnone, if_neg hsk]
    · rfl
    case hnone =>
      intro g hg hgsk hgk
      exact hsk (huniq g hg hgk hgsk ▸ hgsk)

/-- Counterexample for C8 as stated: the Omit fixture has its identifier
tagged bson:"_id,omitempty"; for the registered entity 4 with zero
identifier the projected record holds no _id entry at all, although the
claim says the identifier field is always written under _id. -/
theorem c8_projection_cex :
    omitMeta.idField = "ID" ∧
    (dmBase.heap 4).get "ID" = BVal.vId 0 ∧
    alGet (structToMap dmBase.metadatas dmBase.heap 4) "_id" = none := by
  decide

/-- Witness for C8: in the User fixture, entity 2 projects its Name field
under key name and its identifier under _id. -/
theorem c8_projection_witness :
    alGet (structToMap dmBase.metadatas dmBase.heap 2) "name" =
      some (BVal.vStr "bob") ∧
    alGet (structToMap dmBase.metadatas dmBase.heap 2) "_id" =
      some (BVal.vId 7) := by
  have h1 := c8_projection dmBase.metadatas dmBase.heap 2 "name" userMeta
    { name := "Name", key := "name" } (by decide) (by decide) (by decide)
    (by decide)
  have h2 := c8_projection dmBase.metadatas dmBase.heap 2 "_id" userMeta
    userIDField (by decide) (by decide) (by decide) (by decide)
  exact ⟨h1, h2⟩

theorem doPersistManyStep_fold (meta : metadata) (field : MetaField)
    (cidf : MetaField) (hcid : meta.findIDField = some cidf)
    (hcasc : field.relation.cascade = .all ∨ field.relation.cascade = .persist)
    (cs : List Ref) :
    ∀ (dm : DM) (acc : List ObjectId),
      (∀ c ∈ cs, isZero ((dm.heap c).get cidf.name) = false) →
      cs.foldl (doPersistManyStep meta field) (dm, acc) =
        ({ dm with tasks := enqueueAll dm.tasks cs },
          acc ++ cs.map (fun c => asId ((dm.heap c).get cidf.name))) := by
  induction cs with
  | nil =>
    intro dm acc _
    simp [enqueueAll]
  | cons c cs ih =>
    intro dm acc hnz
    rw [List.foldl_cons]
    have hstep : doPersistManyStep meta field (dm, acc) c =
        ({ dm with tasks := alSet dm.tasks c .insert },
          acc ++ [asId ((dm.heap c).get cidf.name)]) := by
      rw [doPersistManyStep, hcid]
      simp only [hnz c (List.mem_cons_self c cs), Bool.false_eq_true,
        if_false, if_pos hcasc]
    rw [hstep]
    rw [ih { dm with tasks := alSet dm.tasks c .insert } _
      (fun c' hc' => hnz c' (List.mem_cons.mpr (Or.inr hc')))]
    simp [enqueueAll, List.foldl_cons]

theorem doPersist_simple (drv : Driver) (dm : DM) (r : Ref) (meta : metadata)
    (hmeta : alGet dm.metadatas (dm.heap r).typeName = some meta)
    (hnorel : meta.hasRelation = false)
    (hok : drv.upsertErr meta.targetDocument
      (alGet (structToMap dm.metadatas dm.heap r) "_id") = none) :
    doPersist drv dm r =
      (dm, [simpleUpsertEv dm.metadatas dm.heap r], none) := by
  rw [doPersist, hmeta]
  simp only [hnorel, Bool.false_eq_true, if_false, hok]
  rw [simpleUpsertEv, hmeta]
  rfl

theorem flush_simple (drv : Driver) (ts : tasksT) :
    ∀ (dm : DM), dm.tasks = ts →
    (∀ rt ∈ ts, rt.2 = task.insert ∧
      simpleInsertable drv dm.metadatas dm.heap rt.1) →
    flushFuel drv ts.length dm =
      ({ dm with tasks := [] },
        ts.map (fun rt => simpleUpsertEv dm.metadatas dm.heap rt.1), .ok) := by
  induction ts with
  | nil =>
    intro dm hts _
    obtain ⟨m, t, hp, g⟩ := dm
    simp only at hts
    subst hts
    simp [flushFuel]
  | cons rt ts ih =>
    intro dm hts h
    obtain ⟨r, tk⟩ := rt
    obtain ⟨htk, meta, hmeta, hnorel, hnoidx, hnocomp, hok⟩ :=
      h (r, tk) (List.mem_cons_self _ _)
    simp only at htk
    subst htk
    rw [List.length_cons, flushFuel, hts]
    simp only
    rw [getMetadatas]
    rw [hmeta]
    simp only [hnoidx, hnocomp, Bool.false_eq_true, if_false]
    rw [doPersist_simple drv { dm with tasks := ts } r meta hmeta hnorel hok]
    have hihres := ih { dm with tasks := ts } rfl
      (fun rt' hrt' => h rt' (List.mem_cons.mpr (Or.inr hrt')))
    simp [hihres]

theorem alGet_enqueueAll (cs : List Ref) :
    ∀ (ts : tasksT) (c : Ref),
      alGet (enqueueAll ts cs) c =
        if c ∈ cs then some .insert else alGet ts c := by
  induction cs with
  | nil => intro ts c; simp [enqueueAll]
  | cons d cs ih =>
    intro ts c
    rw [enqueueAll, List.foldl_cons]
    have : cs.foldl (fun ts c => alSet ts c task.insert)
        (alSet ts d task.insert) = enqueueAll (alSet ts d .insert) cs := rfl
    rw [this, ih]
    by_cases hc : c ∈ cs
    · rw [if_pos hc, if_pos (List.mem_cons.mpr (Or.inr hc))]
    · rw [if_neg hc, alGet_alSet]
      by_cases hcd : c = d
      · rw [if_pos hcd, if_pos (List.mem_cons.mpr (Or.inl hcd))]
      · rw [if_neg hcd, if_neg (by
          rintro h
          rcases List.mem_cons.mp h with h | h
          · exact hcd h
          · exact hc h)]

theorem mem_enqueueAll (cs : List Ref) :
    ∀ (ts : tasksT) (rt : Ref × task), rt ∈ enqueueAll ts cs →
      rt ∈ ts ∨ (rt.1 ∈ cs ∧ rt.2 = .insert) := by
  induction cs with
  | nil => intro ts rt h; exact Or.inl h
  | cons d cs ih =>
    intro ts rt h
    rw [enqueueAll, List.foldl_cons] at h
    rcases ih (alSet ts d .insert) rt h with h | h
    · rcases mem_alSet ts d .insert rt h with h | h
      · subst h
        exact Or.inr ⟨List.mem_cons_self d cs, rfl⟩
      · exact Or.inl h
    · exact Or.inr ⟨List.mem_cons.mpr (Or.inr h.1), h.2⟩

theorem nodupkeys_alSet [DecidableEq α] (m : List (α × β)) (k : α) (v : β)
    (h : (m.map Prod.fst).Nodup) : ((alSet m k v).map Prod.fst).Nodup := by
  rw [alSet_keys]
  by_cases hs : (alGet m k).isSome
  · rw [if_pos hs]; exact h
  · rw [if_neg hs]
    rw [List.nodup_append]
    refine ⟨h, List.nodup_singleton k, ?_⟩
    intro a ha hb
    rw [List.mem_singleton] at hb
    subst hb
    rw [← alGet_isSome_iff] at ha
    exact hs ha

theorem nodupkeys_enqueueAll (cs : List Ref) :
    ∀ (ts : tasksT), (ts.map Prod.fst).Nodup →
      ((enqueueAll ts cs).map Prod.fst).Nodup := by
  induction cs with
  | nil => intro ts h; exact h
  | cons d cs ih =>
    intro ts h
    rw [enqueueAll, List.foldl_cons]
    exact ih (alSet ts d .insert) (nodupkeys_alSet ts d .insert h)

theorem count_map_key (f : Ref → DriverEvent) (cs : List Ref) (c : Ref)
    (hinj : ∀ c1 ∈ cs, ∀ c2 ∈ cs, f c1 = f c2 → c1 = c2) (hc : c ∈ cs) :
    ∀ (l : tasksT), (∀ rt ∈ l, rt.1 ∈ cs) → (l.map Prod.fst).Nodup →
      alGet l c = some .insert →
      (l.map (fun rt => f rt.1)).count (f c) = 1 := by
  intro l
  induction l with
  | nil => intro _ _ hget; cases hget
  | cons rt l ih =>
    intro hsub hnd hget
    obtain ⟨k, v⟩ := rt
    rw [List.map_cons, List.count_cons]
    rw [List.map_cons, List.nodup_cons] at hnd
    by_cases hkc : k = c
    · subst hkc
      have hzero : (l.map (fun rt => f rt.1)).count (f k) = 0 := by
        rw [List.count_eq_zero]
        intro hmem
        rw [List.mem_map] at hmem
        obtain ⟨rt', hrt', hf⟩ := hmem
        have h1 : rt'.1 ∈ cs := hsub rt' (List.mem_cons.mpr (Or.inr hrt'))
        have h2 : rt'.1 = k := hinj rt'.1 h1 k hc hf
        have h3 : rt'.1 ∈ l.map Prod.fst := List.mem_map_of_mem Prod.fst hrt'
        rw [h2] at h3
        exact hnd.1 h3
      simp [hzero]
    · have hbne : ¬(f (k, v).1 == f c) = true := by
        simp only [beq_iff_eq]
        intro hf
        exact hkc (hinj k (hsub (k, v) (List.mem_cons_self _ _)) c hc hf)
      rw [if_neg hbne]
      rw [alGet, if_neg hkc] at hget
      rw [ih (fun rt' hrt' => hsub rt' (List.mem_cons.mpr (Or.inr hrt')))
        hnd.2 hget]

theorem doPersist_owner (drv : Driver) (dm : DM) (o : Ref) (ometa : metadata)
    (rf : MetaField) (cmeta : metadata) (ctn : String) (cidf : MetaField)
    (cs : List Ref)
    (hmeta : alGet dm.metadatas (dm.heap o).typeName = some ometa)
    (hrelAll : ometa.hasRelation = true)
    (hrel : ometa.getFieldsWithRelation = [rf])
    (hrf1 : rf.relation.mapped ≠ .mappedBy)
    (hrf2 : rf.relation.relation = .referenceMany)
    (hrf3 : rf.relation.cascade = .all ∨ rf.relation.cascade = .persist)
    (hfm : findMetadataByCollectionName dm.metadatas rf.relation.targetDocument
      = some (cmeta, ctn))
    (hcid : cmeta.findIDField = some cidf)
    (hcs : (dm.heap o).get rf.name = .vPtrs cs)
    (hnz : ∀ c ∈ cs, isZero ((dm.heap c).get cidf.name) = false)
    (hup : drv.upsertErr ometa.targetDocument
      (alGet (ownerUpsertRecord dm.metadatas dm.heap o rf cidf cs) "_id") =
      none) :
    doPersist drv dm o =
      ({ dm with tasks := enqueueAll dm.tasks cs },
        [DriverEvent.upsert ometa.targetDocument
          (alGet (ownerUpsertRecord dm.metadatas dm.heap o rf cidf cs) "_id")
          (stripID (ownerUpsertRecord dm.metadatas dm.heap o rf cidf cs))],
        none) := by
  rw [doPersist, hmeta]
  simp only [hrelAll, if_true, hrel, List.foldl_cons, List.foldl_nil]
  rw [if_pos hrf1, hrf2]
  simp only [hfm, hcs, asRefs]
  rw [doPersistManyStep_fold cmeta rf cidf hcid hrf3 cs dm []
    (fun c hc => hnz c hc)]
  simp only [List.nil_append]
  rw [show alSet (structToMap dm.metadatas dm.heap o) rf.key
      (BVal.vIds (cs.map (fun c => asId ((dm.heap c).get cidf.name)))) =
      ownerUpsertRecord dm.metadatas dm.heap o rf cidf cs from rfl]
  rw [hup]

/-- C2 (amended): when the buffer holds a single create intent for an owner
with one owning referenceMany relation with cascade persist or all, whose
related entities all have nonzero identifiers, are of registered relation-
and index-free types, and produce pairwise distinct upsert events, Flush
terminates after one owner step plus one step per distinct related entity:
the owner is committed exactly once (the head of the trace) and every
related entity is committed exactly once. The general claim fails: a
cascade may re-enqueue an entity that was already committed in the same
flush (see the counterexample). -/
theorem c2_flush_cascade_once (drv : Driver) (dm : DM) (o : Ref)
    (ometa : metadata) (rf : MetaField) (cmeta : metadata) (ctn : String)
    (cidf : MetaField) (cs : List Ref)
    (htasks : dm.tasks = [(o, .insert)])
    (hmeta : alGet dm.metadatas (dm.heap o).typeName = some ometa)
    (hrelAll : ometa.hasRelation = true)
    (hrel : ometa.getFieldsWithRelation = [rf])
    (hrf1 : rf.relation.mapped ≠ .mappedBy)
    (hrf2 : rf.relation.relation = .referenceMany)
    (hrf3 : rf.relation.cascade = .all ∨ rf.relation.cascade = .persist)
    (hfm : findMetadataByCollectionName dm.metadatas rf.relation.targetDocument
      = some (cmeta, ctn))
    (hcid : cmeta.findIDField = some cidf)
    (hcs : (dm.heap o).get rf.name = .vPtrs cs)
    (hnz : ∀ c ∈ cs, isZero ((dm.heap c).get cidf.name) = false)
    (hidx : ometa.hasFieldWithIndex = false)
    (hcomp : ometa.hasFieldWithComposite = false)
    (hup : drv.upsertErr ometa.targetDocument
      (alGet (ownerUpsertRecord dm.metadatas dm.heap o rf cidf cs) "_id") =
      none)
    (hchild : ∀ c ∈ cs, simpleInsertable drv dm.metadatas dm.heap c)
    (hinj : ∀ c1 ∈ cs, ∀ c2 ∈ cs,
      simpleUpsertEv dm.metadatas dm.heap c1 =
        simpleUpsertEv dm.metadatas dm.heap c2 → c1 = c2) :
    flushFuel drv ((enqueueAll [] cs).length + 1) dm =
      ({ dm with tasks := [] },
        DriverEvent.upsert ometa.targetDocument
          (alGet (ownerUpsertRecord dm.metadatas dm.heap o rf cidf cs) "_id")
          (stripID (ownerUpsertRecord dm.metadatas dm.heap o rf cidf cs)) ::
        (enqueueAll [] cs).map
          (fun rt => simpleUpsertEv dm.metadatas dm.heap rt.1),
        .ok) ∧
    (∀ c ∈ cs,
      ((enqueueAll [] cs).map
        (fun rt => simpleUpsertEv dm.metadatas dm.heap rt.1)).count
          (simpleUpsertEv dm.metadatas dm.heap c) = 1) := by
  have hmemEnq : ∀ rt ∈ enqueueAll [] cs, rt.1 ∈ cs ∧ rt.2 = task.insert := by
    intro rt hrt
    rcases mem_enqueueAll cs [] rt hrt with h | h
    · cases h
    · exact h
  constructor
  · rw [flushFuel, htasks]
    simp only
    rw [getMetadatas, hmeta]
    simp only [hidx, hcomp, Bool.false_eq_true, if_false]
    rw [doPersist_owner drv { dm with tasks := [] } o ometa rf cmeta ctn cidf
      cs hmeta hrelAll hrel hrf1 hrf2 hrf3 hfm hcid hcs hnz hup]
    have hflush := flush_simple drv (enqueueAll [] cs)
      { dm with tasks := enqueueAll [] cs } rfl
      (fun rt hrt => ⟨(hmemEnq rt hrt).2, hchild rt.1 (hmemEnq rt hrt).1⟩)
    simp [hflush]
  · intro c hc
    exact count_map_key (fun x => simpleUpsertEv dm.metadatas dm.heap x) cs c
      hinj hc (enqueueAll [] cs) (fun rt hrt => (hmemEnq rt hrt).1)
      (nodupkeys_enqueueAll cs [] (by simp))
      (by rw [alGet_enqueueAll cs [] c, if_pos hc])

/-- Counterexample for C2 as stated: the flush terminates normally, yet the
entity O2 (id 10) is upserted twice within the single flush, both times for
a create intent: committing D2 re-enqueued the already committed O2. -/
theorem c2_flush_cascade_once_cex :
    (flushFuel {} 6 dmC2Cex).2.2 = FlushOutcome.ok ∧
    ((flushFuel {} 6 dmC2Cex).2.1.filter
      (fun ev => ev == DriverEvent.upsert "o2s" (some (BVal.vId 10))
        [("odm:childid", BVal.vId 12)])).length = 2 := by
  decide

/-- Witness for C2: owner A with two children flushes to exactly three
upserts, the owner once and each child once. -/
theorem c2_flush_cascade_once_witness :
    (flushFuel {} 3 dmC2W).2.1 =
      [DriverEvent.upsert "as" (some (.vId 40))
        [("odm:kidsids", .vIds [41, 42])],
       DriverEvent.upsert "bs" (some (.vId 41)) [],
       DriverEvent.upsert "bs" (some (.vId 42)) []] ∧
    (flushFuel {} 3 dmC2W).2.2 = .ok := by
  have hchild : ∀ c ∈ ([32, 33] : List Ref),
      simpleInsertable {} dmC2W.metadatas dmC2W.heap c := by
    intro c hc
    rcases List.mem_cons.mp hc with h | hc2
    · subst h
      exact ⟨bMeta, by decide, by decide, by decide, by decide, by decide⟩
    · rcases List.mem_cons.mp hc2 with h | hc3
      · subst h
        exact ⟨bMeta, by decide, by decide, by decide, by decide, by decide⟩
      · cases hc3
  have h := c2_flush_cascade_once {} dmC2W 31 aMeta kidsField bMeta "B"
    userIDField [32, 33] (by decide) (by decide) (by decide) (by decide)
    (by decide) (by decide) (by decide) (by decide) (by decide) (by decide)
    (by decide) (by decide) (by decide) (by decide) hchild (by decide)
  have h1 := h.1
  have hfuel : List.length (enqueueAll [] [32, 33]) + 1 = 3 := by decide
  rw [hfuel] at h1
  rw [h1]
  exact ⟨by decide, rfl⟩

/-- Resolving the Friends field of a batch keyed [(3, 9)] or of an empty
batch against the empty database performs no wiring and recurses on the
empty freshly-fetched batch, whatever the level. -/
theorem c1_fields_step (rec : RSt → List Ref → String → Fetched → ResolveRes)
    (top : Bool) (st : RSt) (fetched : Fetched) :
    resolveFields c1Oracle dmC1.metadatas rec c1meta [] [] top []
        [c1Friends, c1FriendOf] st fetched
      = match rec st [] "Social" fetched with
        | .ok st' fetched' =>
          resolveFields c1Oracle dmC1.metadatas rec c1meta [] [] top []
            [c1FriendOf] st' fetched'
        | other => other := by
  cases top <;> rfl

/-- The resolver never returns on an empty batch of the Social type: the
mappedBy branch of Friends recurses on the empty freshly-fetched batch at
every level, so every amount of fuel is exhausted. -/
theorem c1_empty_batch : ∀ (fuel : Nat) (st : RSt) (fetched : Fetched),
    doResolveRelations c1Oracle dmC1.metadatas fuel st [] "Social" fetched []
      = .noFuel := by
  intro fuel
  induction fuel with
  | zero => intro st fetched; rfl
  | succ n ih =>
    intro st fetched
    have h1 : doResolveRelations c1Oracle dmC1.metadatas (n + 1) st []
          "Social" fetched []
        = resolveFields c1Oracle dmC1.metadatas
            (fun a b c d => doResolveRelations c1Oracle dmC1.metadatas n a b c d [])
            c1meta [] [] fetched.isEmpty [] [c1Friends, c1FriendOf] st
            fetched := rfl
    rw [h1, c1_fields_step]
    simp only [ih]

/-- C1: the claim that the resolver terminates on every registered schema
and database state is refuted by the code: for the registered Social type
(an eager referenceMany mapped by an owning referenceMany on the same
collection), resolving one in-memory document against the empty database
exhausts every amount of fuel - the mappedBy branch recurses on the
freshly-fetched batch without checking it for emptiness, so the recursion
never stops even though no fresh target is ever fetched. -/
theorem c1_resolver_nontermination (fuel : Nat) :
    resolveRelations c1Oracle dmC1.metadatas fuel ⟨c1Heap, 100⟩ [9] "Social" []
      = .noFuel := by
  cases fuel with
  | zero => rfl
  | succ n =>
    have h1 : resolveRelations c1Oracle dmC1.metadatas (n + 1) ⟨c1Heap, 100⟩
          [9] "Social" []
        = resolveFields c1Oracle dmC1.metadatas
            (fun a b c d => doResolveRelations c1Oracle dmC1.metadatas n a b c d [])
            c1meta [(3, 9)] [3] true [] [c1Friends, c1FriendOf]
            ⟨c1Heap, 100⟩ [(3, 9)] := rfl
    have h2 : resolveFields c1Oracle dmC1.metadatas
            (fun a b c d => doResolveRelations c1Oracle dmC1.metadatas n a b c d [])
            c1meta [(3, 9)] [3] true [] [c1Friends, c1FriendOf]
            ⟨c1Heap, 100⟩ [(3, 9)]
        = match doResolveRelations c1Oracle dmC1.metadatas n ⟨c1Heap, 100⟩ []
              "Social" [(3, 9)] [] with
          | .ok st' fetched' =>
            resolveFields c1Oracle dmC1.metadatas
              (fun a b c d => doResolveRelations c1Oracle dmC1.metadatas n a b c d [])
              c1meta [(3, 9)] [3] true [] [c1FriendOf] st' fetched'
          | other => other := rfl
    rw [h1, h2, c1_empty_batch n ⟨c1Heap, 100⟩ [(3, 9)]]

/-- C6 (amended): a primary-key FindID lookup treats driver NotFound as
fatal; the resolver treats NotFound as an empty result set at the
NotFound-tolerant query sites (here an owning referenceOne, which resolves
to ok against a NotFound-answering driver) but propagates it as a fatal
error from the owning referenceMany read; and the delete of the
Persist;Remove;Flush scenario does not tolerate NotFound: the single
RemoveId is attempted and its NotFound surfaces as the flush error. -/
theorem c6_notfound_handling :
    FindID nfOracle nfFindId dmBase.metadatas 3 ⟨dmBase.heap, 100⟩ (.vId 7) 2
      = .err (.driver .notFound) ∧
    resolveRelations nfOracle dmC6.metadatas 1 ⟨c6Heap, 100⟩ [15] "Prof" []
      = .ok ⟨c6Heap, 100⟩ [(4, 15)] ∧
    resolveRelations nfOracle dmC6b.metadatas 3 ⟨c6bHeap, 100⟩ [16] "Team" []
      = .err (.driver .notFound) ∧
    (flushFuel drvNF 2 dmC6del).2
      = ([DriverEvent.removeId "users" (some (BVal.vId 7))],
         .err (.driver .notFound)) :=
  ⟨rfl, rfl, rfl, rfl⟩

/-- Counterexample to C6 as stated: in the delete-wins scenario the single
delete attempted against a NotFound-answering driver is not tolerated -
the flush ends in the driver NotFound error instead of success. -/
theorem c6_notfound_cex :
    (flushFuel drvNF 2 dmC6del).2.1
      = [DriverEvent.removeId "users" (some (BVal.vId 7))] ∧
    (flushFuel drvNF 2 dmC6del).2.2
      = FlushOutcome.err (Err.driver MgoErr.notFound) := by
  decide
